import Mathlib

/-!
# Verification of the beads → GitHub reconciliation engine

A shallow embedding of the reconciliation core of the `beads-synced` action:
the identity-mapping store (`mapper.ts`), the pure diff algorithm
(`diff.ts`), the orchestration of sync actions (`sync.ts`), the comment
reconciler (`comments.ts`) and the mapping (de)serialization.

Modelling conventions:

* TypeScript interfaces become Lean structures with the same field names;
  optional fields become `Option`.
* JavaScript objects used as string-keyed records (`mappings`,
  `link.comments`) become association lists `List (String × _)` with
  JS semantics: lookup finds the first (unique) matching key, assignment
  replaces in place or appends.
* `new Date(s).getTime()` is modelled by a parameter
  `parseDate : String → Option Int` (milliseconds; `none` plays the role
  of `NaN`, and every comparison against `none` is `false`, as in JS).
* Stateful code (mutation of the mapping file) is modelled by explicit
  state passing; the GitHub client is modelled by a record of call
  outcomes (`ClientResponses`) together with a trace of issued calls
  (`MirrorCall`), with `Except.error` playing the role of a thrown
  exception.
* `JSON.stringify(x, null, 2)` / `JSON.parse` are modelled by an
  executable printer and parser over a `Json` AST whose numbers are
  integers (the engine only ever serializes integers).
-/

namespace BeadsSync

/-! ## Data model (`types.ts`) -/

/-- `BeadsStatus` — `'open' | 'in_progress' | 'blocked' | 'closed'`. -/
inductive BeadsStatus where
  | «open»
  | in_progress
  | blocked
  | closed
deriving DecidableEq, Repr

/-- `BeadsIssueType` — `'bug' | 'feature' | 'task' | 'epic' | 'chore'`. -/
inductive BeadsIssueType where
  | bug
  | feature
  | task
  | epic
  | chore
deriving DecidableEq, Repr

/-- `DependencyType` — hyphens in the TS string literals become underscores. -/
inductive DependencyType where
  | blocks
  | blocked_by
  | relates_to
  | parent_child
deriving DecidableEq, Repr

/-- A dependency reference in a beads issue. -/
structure BeadsDependency where
  id : String
  type : DependencyType
deriving DecidableEq, Repr

/-- A comment on a beads issue. -/
structure BeadsComment where
  id : String
  author : String
  created_at : String
  body : String
deriving DecidableEq, Repr

/-- A beads issue as stored in `issues.jsonl`. -/
structure BeadsIssue where
  id : String
  title : String
  description : Option String
  design : Option String
  acceptance_criteria : Option (List String)
  notes : Option String
  status : BeadsStatus
  priority : Option Nat
  issue_type : Option BeadsIssueType
  assignee : Option String
  labels : Option (List String)
  dependencies : Option (List BeadsDependency)
  external_ref : Option String
  close_reason : Option String
  comments : Option (List BeadsComment)
  created_at : String
  updated_at : String
  estimated_time : Option String
deriving DecidableEq, Repr

/-- Comment mapping within an issue mapping. -/
structure CommentMapping where
  github_comment_id : Int
deriving DecidableEq, Repr

/-- Mapping entry (Link) for a single beads issue; `comments` is a JS object
keyed by beads comment id, modelled as an association list. -/
structure IssueMapping where
  github_issue_number : Nat
  github_issue_id : Int
  last_sync_at : String
  beads_updated_at : String
  adopted_from_external_ref : Bool
  comments : List (String × CommentMapping)
deriving DecidableEq, Repr

/-- Sync metadata stored in the mapping file. -/
structure SyncMetadata where
  last_full_sync : String
deriving DecidableEq, Repr

/-- The complete mapping file structure; `mappings` is a JS object keyed by
beads issue id, modelled as an association list (unique keys, insertion
order). -/
structure MappingFile where
  version : Int
  mappings : List (String × IssueMapping)
  sync_metadata : SyncMetadata
deriving DecidableEq, Repr

/-- The subset of `SyncConfig` consumed by the reconciliation engine
(`labelPrefix` is called `labelPref` here because Lean names may not end
in that token). -/
structure SyncConfig where
  dryRun : Bool
  syncComments : Bool
  labelPref : String
  addSyncMarker : Bool
  closeDeleted : Bool
deriving DecidableEq, Repr

/-- `SyncActionType` — `'create' | 'update' | 'close' | 'reopen' | 'adopt'`. -/
inductive SyncActionType where
  | create
  | update
  | close
  | reopen
  | adopt
deriving DecidableEq, Repr

/-- A sync action to be performed on a GitHub issue. -/
structure SyncAction where
  type : SyncActionType
  beadsIssue : BeadsIssue
  githubIssueNumber : Option Nat
  reason : String
deriving DecidableEq, Repr

/-- A comment sync action. -/
structure CommentSyncAction where
  beadsIssueId : String
  githubIssueNumber : Nat
  comment : BeadsComment
deriving DecidableEq, Repr

/-- Result of the diff operation. -/
structure DiffResult where
  actions : List SyncAction
  commentActions : List CommentSyncAction
  deletedIssueIds : List String
deriving DecidableEq, Repr

/-- An error that occurred during sync.  The TS union also allows the
literal `'comment'` in `action`, but the engine never constructs it
(comment failures are logged, not recorded), so the model uses
`SyncActionType`. -/
structure SyncError where
  beadsIssueId : String
  action : SyncActionType
  message : String
deriving DecidableEq, Repr

/-! ## Association-list primitives (JS object semantics) -/

/-- `obj[k]` — first (unique) binding of key `k`. -/
def alistGet {α : Type} : List (String × α) → String → Option α
  | [], _ => none
  | (k', v) :: rest, k => if k' == k then some v else alistGet rest k

/-- `obj[k] = v` — replace in place if the key exists, else append
(JS property insertion order). -/
def alistSet {α : Type} : List (String × α) → String → α → List (String × α)
  | [], k, v => [(k, v)]
  | (k', v') :: rest, k, v =>
    if k' == k then (k, v) :: rest else (k', v') :: alistSet rest k v

/-! ## Identity map (`mapper.ts`) -/

/-- `createEmptyMapping` — the wall-clock `new Date().toISOString()` is the
parameter `now`. -/
def createEmptyMapping (now : String) : MappingFile :=
  { version := 1
  , mappings := []
  , sync_metadata := { last_full_sync := now } }

/-- `getMapping`. -/
def getMapping (mappingFile : MappingFile) (beadsId : String) : Option IssueMapping :=
  alistGet mappingFile.mappings beadsId

/-- `setMapping`. -/
def setMapping (mappingFile : MappingFile) (beadsId : String) (mapping : IssueMapping) : MappingFile :=
  { mappingFile with mappings := alistSet mappingFile.mappings beadsId mapping }

/-- `getCommentMapping`. -/
def getCommentMapping (mappingFile : MappingFile) (beadsIssueId commentId : String) : Option Int :=
  match getMapping mappingFile beadsIssueId with
  | none => none
  | some issueMapping =>
    match alistGet issueMapping.comments commentId with
    | some c => some c.github_comment_id
    | none => none

/-- `setCommentMapping` — a no-op when the parent Link does not exist. -/
def setCommentMapping (mappingFile : MappingFile) (beadsIssueId commentId : String)
    (githubCommentId : Int) : MappingFile :=
  match getMapping mappingFile beadsIssueId with
  | none => mappingFile
  | some issueMapping =>
    setMapping mappingFile beadsIssueId
      { issueMapping with
        comments := alistSet issueMapping.comments commentId ⟨githubCommentId⟩ }

/-- `getMappedBeadsIds` — `Object.keys(mappingFile.mappings)`. -/
def getMappedBeadsIds (mappingFile : MappingFile) : List String :=
  mappingFile.mappings.map (fun p => p.1)

/-- `updateLastSyncTime` — wall clock as parameter `now`. -/
def updateLastSyncTime (mappingFile : MappingFile) (now : String) : MappingFile :=
  { mappingFile with sync_metadata := { last_full_sync := now } }

/-- `createIssueMapping` — the TS default `adoptedFromExternalRef = false`
is passed explicitly at every call site; wall clock as parameter `now`. -/
def createIssueMapping (githubIssueNumber : Nat) (githubIssueId : Int)
    (beadsUpdatedAt : String) (adoptedFromExternalRef : Bool) (now : String) : IssueMapping :=
  { github_issue_number := githubIssueNumber
  , github_issue_id := githubIssueId
  , last_sync_at := now
  , beads_updated_at := beadsUpdatedAt
  , adopted_from_external_ref := adoptedFromExternalRef
  , comments := [] }

/-! ## Diff algorithm (`diff.ts`) -/

/-- Numeric value of a list of decimal digit characters, as accumulated by
`parseInt(_, 10)` (exact; the model ignores IEEE-754 rounding above 2^53,
which no claim exercises). -/
def digitsVal (ds : List Char) : Nat :=
  ds.foldl (fun a c => 10 * a + (c.toNat - 48)) 0

/-- `parseExternalRef` — the anchored pattern `^gh-(\d+)$`; `parseInt` on a
non-empty digit string never yields `NaN`, so the `isNaN` guard of the
source is vacuous here. -/
def parseExternalRef (externalRef : String) : Option Nat :=
  match externalRef.data with
  | 'g' :: 'h' :: '-' :: ds =>
    if ds.isEmpty then none
    else if ds.all (fun c => c.isDigit) then some (digitsVal ds) else none
  | _ => none

/-- `needsUpdate` — `new Date(issue.updated_at).getTime() >
new Date(mapping.beads_updated_at).getTime()`; a `NaN` (`none`) on either
side makes the strict comparison `false`, as in JS. -/
def needsUpdate (parseDate : String → Option Int) (issue : BeadsIssue)
    (mapping : IssueMapping) : Bool :=
  match parseDate issue.updated_at, parseDate mapping.beads_updated_at with
  | some beadsUpdated, some lastSynced => beadsUpdated > lastSynced
  | _, _ => false

/-- `getNewComments`. -/
def getNewComments (issue : BeadsIssue) (existingMapping : Option IssueMapping)
    (githubIssueNumber : Nat) : List CommentSyncAction :=
  match issue.comments with
  | none => []
  | some cs =>
    if cs.isEmpty then []
    else
      let syncedCommentIds : List String :=
        match existingMapping with
        | some em => em.comments.map (fun p => p.1)
        | none => ([] : List String)
      (cs.filter (fun comment => !(syncedCommentIds.contains comment.id))).map
        (fun comment =>
          { beadsIssueId := issue.id
          , githubIssueNumber := githubIssueNumber
          , comment := comment })

/-- The body of `computeDiff`'s per-issue loop: the pair of the status
actions and comment actions pushed for one issue.  The truthiness test
`if (issue.external_ref)` makes the empty string fall through to `create`. -/
def diffIssue (parseDate : String → Option Int) (mapping : MappingFile)
    (issue : BeadsIssue) : List SyncAction × List CommentSyncAction :=
  match getMapping mapping issue.id with
  | none =>
    let createResult :=
      ([{ type := SyncActionType.create
        , beadsIssue := issue
        , githubIssueNumber := none
        , reason := "New beads issue" }], ([] : List CommentSyncAction))
    match issue.external_ref with
    | some ref =>
      if ref.isEmpty then createResult
      else
        match parseExternalRef ref with
        | some ghIssueNumber =>
          ([{ type := SyncActionType.adopt
            , beadsIssue := issue
            , githubIssueNumber := some ghIssueNumber
            , reason := "Adopting existing GitHub issue from external_ref" }],
           getNewComments issue none ghIssueNumber)
        | none => createResult
    | none => createResult
  | some existingMapping =>
    ((if needsUpdate parseDate issue existingMapping then
        if issue.status = BeadsStatus.closed then
          [{ type := SyncActionType.close
           , beadsIssue := issue
           , githubIssueNumber := some existingMapping.github_issue_number
           , reason := "Beads issue closed" }]
        else
          [{ type := SyncActionType.update
           , beadsIssue := issue
           , githubIssueNumber := some existingMapping.github_issue_number
           , reason := "Beads issue updated" }]
      else []),
     getNewComments issue (some existingMapping) existingMapping.github_issue_number)

/-- `computeDiff` — a pure function of the snapshot and the mapping; it
only reads `mapping` (the source never writes it inside the loop), so the
loop is the concatenation of the per-issue contributions `diffIssue`. -/
def computeDiff (parseDate : String → Option Int) (issues : List BeadsIssue)
    (mapping : MappingFile) : DiffResult :=
  let beadsIds := issues.map (fun i => i.id)
  let mappedIds := getMappedBeadsIds mapping
  { actions := issues.flatMap (fun issue => (diffIssue parseDate mapping issue).1)
  , commentActions := issues.flatMap (fun issue => (diffIssue parseDate mapping issue).2)
  , deletedIssueIds := mappedIds.filter (fun mappedId => !(beadsIds.contains mappedId)) }

/-! ## Labels (`labels.ts`, constants from `types.ts`) -/

/-- Label configuration. -/
structure LabelConfig where
  name : String
  color : String
  description : String
deriving DecidableEq, Repr

/-- `PRIORITY_LABELS` — a `Record<BeadsPriority, LabelConfig>`; indexing at
an out-of-range priority yields `undefined` (`none`). -/
def PRIORITY_LABELS : Nat → Option LabelConfig
  | 0 => some ⟨"priority:p0", "b60205", "Critical priority"⟩
  | 1 => some ⟨"priority:p1", "d93f0b", "High priority"⟩
  | 2 => some ⟨"priority:p2", "fbca04", "Medium priority"⟩
  | 3 => some ⟨"priority:p3", "0e8a16", "Low priority"⟩
  | 4 => some ⟨"priority:p4", "c5def5", "Minimal priority"⟩
  | _ => none

/-- `TYPE_LABELS`. -/
def TYPE_LABELS : BeadsIssueType → LabelConfig
  | .bug => ⟨"type:bug", "b60205", "Bug report"⟩
  | .feature => ⟨"type:feature", "0e8a16", "New feature"⟩
  | .task => ⟨"type:task", "1d76db", "Task"⟩
  | .epic => ⟨"type:epic", "5319e7", "Epic"⟩
  | .chore => ⟨"type:chore", "c5def5", "Chore/maintenance"⟩

/-- `SYNC_MARKER_LABEL`. -/
def SYNC_MARKER_LABEL : LabelConfig :=
  ⟨"beads-synced", "6f42c1", "Issue synced from beads"⟩

/-- `BLOCKED_LABEL`. -/
def BLOCKED_LABEL : LabelConfig :=
  ⟨"beads-blocked", "d93f0b", "Issue has open blockers"⟩

/-- `IN_PROGRESS_LABEL` (name fixed by the label tests). -/
def IN_PROGRESS_LABEL : LabelConfig :=
  ⟨"beads-in-progress", "fbca04", "Issue is in progress"⟩

/-- `BEADS_ID_LABEL_PREFIX` constant (shortened name; fixed by the label
tests: `getBeadsIdLabel('bd-abc123') = 'beads-id:bd-abc123'`). -/
def BEADS_ID_LABEL_PREF : String := "beads-id:"

/-- `LabelOptions` (`labelPrefix` shortened to `labelPref`). -/
structure LabelOptions where
  addSyncMarker : Bool
  labelPref : Option String
deriving DecidableEq, Repr

/-- `getBeadsIdLabel`. -/
def getBeadsIdLabel (beadsId : String) (pref : String) : String :=
  pref ++ BEADS_ID_LABEL_PREF ++ beadsId

/-- `getEpicLabel`. -/
def getEpicLabel (parentBeadsId : String) (pref : String) : String :=
  pref ++ "epic:" ++ parentBeadsId

/-- `getLabelsForIssue` — the successive `labels.push` calls become list
concatenation in source order. -/
def getLabelsForIssue (issue : BeadsIssue) (options : LabelOptions) : List String :=
  let pref := options.labelPref.getD ""
  let syncMarker := if options.addSyncMarker then [pref ++ SYNC_MARKER_LABEL.name] else []
  let beadsIdLabel := [getBeadsIdLabel issue.id pref]
  let priorityLabels :=
    match issue.priority with
    | some p =>
      match PRIORITY_LABELS p with
      | some priorityLabel => [pref ++ priorityLabel.name]
      | none => []
    | none => []
  let typeLabels :=
    match issue.issue_type with
    | some t => [pref ++ (TYPE_LABELS t).name]
    | none => []
  let statusLabels :=
    if issue.status = BeadsStatus.blocked then [pref ++ BLOCKED_LABEL.name]
    else if issue.status = BeadsStatus.in_progress then [pref ++ IN_PROGRESS_LABEL.name]
    else []
  let customLabels := issue.labels.getD []
  let epicLabels :=
    ((issue.dependencies.getD []).filter (fun dep => dep.type = DependencyType.parent_child)).map
      (fun dep => getEpicLabel dep.id pref)
  syncMarker ++ beadsIdLabel ++ priorityLabels ++ typeLabels ++ statusLabels ++
    customLabels ++ epicLabels

/-! ## Templates (`template.ts`) -/

/-- The TS string value of a `DependencyType` (interpolated as `${dep.type}`). -/
def depTypeString : DependencyType → String
  | .blocks => "blocks"
  | .blocked_by => "blocked-by"
  | .relates_to => "relates-to"
  | .parent_child => "parent-child"

/-- `generateIssueBody`. -/
def generateIssueBody (issue : BeadsIssue) (mapping : MappingFile) : String :=
  let marker := "<!-- beads-sync:" ++ issue.id ++ " -->"
  let banner :=
    "> [!CAUTION]\n> This issue is synced from beads. Do not edit directly—changes will be overwritten.\n> To update, use `bd update "
      ++ issue.id ++ "` in the source repository."
  let descSections :=
    match issue.description with
    | some d => [d]
    | none => []
  let acceptanceSections :=
    match issue.acceptance_criteria with
    | some criteria =>
      if criteria.isEmpty then []
      else
        let checklist := String.intercalate "\n" (criteria.map (fun c => "- [ ] " ++ c))
        ["<details>\n<summary>Acceptance Criteria</summary>\n\n" ++ checklist ++ "\n\n</details>"]
    | none => []
  let designSections :=
    match issue.design with
    | some d => ["<details>\n<summary>Design Notes</summary>\n\n" ++ d ++ "\n\n</details>"]
    | none => []
  let notesSections :=
    match issue.notes with
    | some n => ["<details>\n<summary>Working Notes</summary>\n\n" ++ n ++ "\n\n</details>"]
    | none => []
  let idRow := ["| **Beads ID** | `" ++ issue.id ++ "` |"]
  let depRows :=
    match issue.dependencies with
    | some deps =>
      if deps.isEmpty then []
      else
        let depStrings := deps.map (fun dep =>
          match getMapping mapping dep.id with
          | some depMapping =>
            "#" ++ toString depMapping.github_issue_number ++ " (" ++ depTypeString dep.type ++ ")"
          | none => dep.id ++ " (" ++ depTypeString dep.type ++ ")")
        ["| **Dependencies** | " ++ String.intercalate ", " depStrings ++ " |"]
    | none => []
  let timeRows :=
    match issue.estimated_time with
    | some t => ["| **Estimated Time** | " ++ t ++ " |"]
    | none => []
  let assigneeRows :=
    match issue.assignee with
    | some a => ["| **Assignee (beads)** | " ++ a ++ " |"]
    | none => []
  let refRows :=
    match issue.external_ref with
    | some r => ["| **External Ref** | " ++ r ++ " |"]
    | none => []
  let metadataRows := idRow ++ depRows ++ timeRows ++ assigneeRows ++ refRows
  let tableSections :=
    if metadataRows.isEmpty then []
    else ["---", "| Field | Value |\n|-------|-------|\n" ++ String.intercalate "\n" metadataRows]
  String.intercalate "\n\n"
    ([marker, banner] ++ descSections ++ acceptanceSections ++ designSections ++
      notesSections ++ tableSections)

/-- `generateClosingComment`. -/
def generateClosingComment (issue : BeadsIssue) : String :=
  let reasonPart :=
    match issue.close_reason with
    | some r => "\n\n**Reason:** " ++ r
    | none => ""
  "This issue was closed in beads." ++ reasonPart ++
    "\n\n---\n*Synced from beads issue `" ++ issue.id ++ "`*"

/-- `generateDeletionComment`. -/
def generateDeletionComment (beadsId : String) : String :=
  "This issue was deleted from beads tracking.\n\n---\n*Previously tracked as beads issue `"
    ++ beadsId ++ "`*"

/-! ## Action executor and orchestrator (`sync.ts`, `comments.ts`)

The GitHub client is modelled by a record of per-call outcomes
(`ClientResponses`): `Except.error msg` plays the role of a thrown
exception whose `String(error)` is `msg`.  `executeAction` additionally
returns the ordered trace of mirror calls it issued (`MirrorCall`), so
that sequencing claims (update-then-close, never-close-on-create) are
statable. -/

/-- One call against the `GitHubClient` collaborator, at the granularity of
the client's methods.  `closeIssue` is the client method (internally a
comment post plus a state update). -/
inductive MirrorCall where
  | filterValidAssignees (assignees : List String)
  | createIssue (title body : String) (labels assignees : List String)
  | updateIssue (issueNumber : Nat) (title body : String) (labels : List String)
      (assignees : Option (List String))
  | closeIssue (issueNumber : Nat) (comment : Option String)
  | getIssue (issueNumber : Nat)
  | reopenIssue (issueNumber : Nat)
deriving DecidableEq, Repr

/-- Outcomes of the client calls an action may make.  `validAssignees` is
the result of `filterValidAssignees` (which never throws: it swallows its
own errors); `getIssue = .ok none` is the 404 sentinel; `now` is the wall
clock `new Date().toISOString()` read on a successful mutation. -/
structure ClientResponses where
  validAssignees : List String
  createIssue : Except String (Nat × Int)
  updateIssue : Except String Unit
  closeIssue : Except String Unit
  getIssue : Except String (Option (Nat × Int))
  reopenIssue : Except String Unit
  now : String
deriving Repr

/-- Result of executing one action: the (possibly) mutated mapping, the
isolated error if any, and the trace of mirror calls issued. -/
structure ExecResult where
  mapping : MappingFile
  error : Option SyncError
  calls : List MirrorCall
deriving Repr

/-- The in-place watermark mutation shared by the `update` and `close`
branches: `existingMapping.beads_updated_at = beadsIssue.updated_at;
existingMapping.last_sync_at = new Date().toISOString()` — a no-op when no
Link exists. -/
def setWatermark (mapping : MappingFile) (beadsId : String)
    (beadsUpdatedAt now : String) : MappingFile :=
  match getMapping mapping beadsId with
  | some existingMapping =>
    setMapping mapping beadsId
      { existingMapping with beads_updated_at := beadsUpdatedAt, last_sync_at := now }
  | none => mapping

/-- `executeAction`.  The TS non-null assertion `action.githubIssueNumber!`
is modelled by `getD 0` (the diff only emits `update`/`close`/`adopt` with
the number present).  The body/labels/assignee-filter computations happen
before the `switch`, exactly as in the source; in dry-run mode every branch
returns before its mutating call and leaves the mapping untouched. -/
def executeAction (action : SyncAction) (mapping : MappingFile)
    (resp : ClientResponses) (config : SyncConfig) : ExecResult :=
  let beadsIssue := action.beadsIssue
  let body := generateIssueBody beadsIssue mapping
  let labels := getLabelsForIssue beadsIssue
    { addSyncMarker := config.addSyncMarker, labelPref := some config.labelPref }
  let preCalls : List MirrorCall :=
    match beadsIssue.assignee with
    | some a => [MirrorCall.filterValidAssignees [a]]
    | none => []
  let assignees : List String :=
    match beadsIssue.assignee with
    | some _ => resp.validAssignees
    | none => []
  let issueNumber := action.githubIssueNumber.getD 0
  match action.type with
  | .create =>
    if config.dryRun then { mapping := mapping, error := none, calls := preCalls }
    else
      let call := MirrorCall.createIssue beadsIssue.title body labels assignees
      match resp.createIssue with
      | .error e =>
        { mapping := mapping
        , error := some ⟨beadsIssue.id, action.type, e⟩
        , calls := preCalls ++ [call] }
      | .ok (number, ghId) =>
        { mapping := setMapping mapping beadsIssue.id
            (createIssueMapping number ghId beadsIssue.updated_at false resp.now)
        , error := none
        , calls := preCalls ++ [call] }
  | .update =>
    if config.dryRun then { mapping := mapping, error := none, calls := preCalls }
    else
      let call := MirrorCall.updateIssue issueNumber beadsIssue.title body labels (some assignees)
      match resp.updateIssue with
      | .error e =>
        { mapping := mapping
        , error := some ⟨beadsIssue.id, action.type, e⟩
        , calls := preCalls ++ [call] }
      | .ok _ =>
        { mapping := setWatermark mapping beadsIssue.id beadsIssue.updated_at resp.now
        , error := none
        , calls := preCalls ++ [call] }
  | .close =>
    if config.dryRun then { mapping := mapping, error := none, calls := preCalls }
    else
      -- "Also update the body before closing" — no assignees on this update
      let updateCall := MirrorCall.updateIssue issueNumber beadsIssue.title body labels none
      match resp.updateIssue with
      | .error e =>
        { mapping := mapping
        , error := some ⟨beadsIssue.id, action.type, e⟩
        , calls := preCalls ++ [updateCall] }
      | .ok _ =>
        let closingComment := generateClosingComment beadsIssue
        let closeCall := MirrorCall.closeIssue issueNumber (some closingComment)
        match resp.closeIssue with
        | .error e =>
          { mapping := mapping
          , error := some ⟨beadsIssue.id, action.type, e⟩
          , calls := preCalls ++ [updateCall, closeCall] }
        | .ok _ =>
          { mapping := setWatermark mapping beadsIssue.id beadsIssue.updated_at resp.now
          , error := none
          , calls := preCalls ++ [updateCall, closeCall] }
  | .adopt =>
    if config.dryRun then { mapping := mapping, error := none, calls := preCalls }
    else
      let getCall := MirrorCall.getIssue issueNumber
      match resp.getIssue with
      | .error e =>
        { mapping := mapping
        , error := some ⟨beadsIssue.id, action.type, e⟩
        , calls := preCalls ++ [getCall] }
      | .ok none =>
        { mapping := mapping
        , error := some ⟨beadsIssue.id, SyncActionType.adopt,
            "GitHub issue #" ++ toString issueNumber ++ " not found"⟩
        , calls := preCalls ++ [getCall] }
      | .ok (some (number, ghId)) =>
        let updateCall := MirrorCall.updateIssue issueNumber beadsIssue.title body labels (some assignees)
        match resp.updateIssue with
        | .error e =>
          { mapping := mapping
          , error := some ⟨beadsIssue.id, action.type, e⟩
          , calls := preCalls ++ [getCall, updateCall] }
        | .ok _ =>
          { mapping := setMapping mapping beadsIssue.id
              (createIssueMapping number ghId beadsIssue.updated_at true resp.now)
          , error := none
          , calls := preCalls ++ [getCall, updateCall] }
  | .reopen =>
    if config.dryRun then { mapping := mapping, error := none, calls := preCalls }
    else
      let reopenCall := MirrorCall.reopenIssue issueNumber
      match resp.reopenIssue with
      | .error e =>
        { mapping := mapping
        , error := some ⟨beadsIssue.id, action.type, e⟩
        , calls := preCalls ++ [reopenCall] }
      | .ok _ =>
        let updateCall := MirrorCall.updateIssue issueNumber beadsIssue.title body labels (some assignees)
        match resp.updateIssue with
        | .error e =>
          { mapping := mapping
          , error := some ⟨beadsIssue.id, action.type, e⟩
          , calls := preCalls ++ [reopenCall, updateCall] }
        | .ok _ =>
          { mapping := mapping, error := none, calls := preCalls ++ [reopenCall, updateCall] }

/-- The `for (const action of diff.actions)` loop of `runSync`: each action
is executed with its own client outcomes; an error is appended to the error
list and the loop proceeds to the next action. The per-action counters of
`SyncResult` are not modelled (no claim mentions them). -/
def runActions (config : SyncConfig) :
    List (SyncAction × ClientResponses) → MappingFile → MappingFile × List SyncError
  | [], mapping => (mapping, [])
  | (action, resp) :: rest, mapping =>
    let res := executeAction action mapping resp config
    let next := runActions config rest res.mapping
    (next.1, res.error.toList ++ next.2)

/-- `syncComments` (`comments.ts`), paired with the outcome of each
`createComment` call.  The rendered comment body (`formatBeadsComment`) is
not observable in any claim and is not modelled.  A failure is only logged:
the mapping is untouched and the loop continues; dry-run short-circuits
before the mutating call. -/
def syncComments :
    List (CommentSyncAction × Except String Int) → MappingFile → Bool → MappingFile × Nat
  | [], mapping, _ => (mapping, 0)
  | (action, resp) :: rest, mapping, dryRun =>
    if dryRun then syncComments rest mapping dryRun
    else
      match resp with
      | .ok githubCommentId =>
        let m' := setCommentMapping mapping action.beadsIssueId action.comment.id githubCommentId
        let next := syncComments rest m' dryRun
        (next.1, next.2 + 1)
      | .error _ => syncComments rest mapping dryRun

/-- Loop body of `handleDeletedIssues`: closes the GitHub issue for each
deleted beads id (failures are only logged).  It reads the mapping but
never writes it — its type returns only the closed count. -/
def handleDeletedIssuesLoop (mapping : MappingFile)
    (closeResp : String → Except String Unit) (config : SyncConfig) : List String → Nat
  | [] => 0
  | beadsId :: rest =>
    match getMapping mapping beadsId with
    | none => handleDeletedIssuesLoop mapping closeResp config rest
    | some _ =>
      if config.dryRun then handleDeletedIssuesLoop mapping closeResp config rest
      else
        match closeResp beadsId with
        | .ok _ => 1 + handleDeletedIssuesLoop mapping closeResp config rest
        | .error _ => handleDeletedIssuesLoop mapping closeResp config rest

/-- `handleDeletedIssues`. -/
def handleDeletedIssues (deletedIds : List String) (mapping : MappingFile)
    (closeResp : String → Except String Unit) (config : SyncConfig) : Nat :=
  if config.closeDeleted then handleDeletedIssuesLoop mapping closeResp config deletedIds
  else 0

/-- The mutating pipeline of `runSync`, applied to an already-filtered
issue list: compute the diff, execute the actions in order, handle
deletions (which never touch the mapping), sync comments if enabled, and
stamp the sync metadata on a non-dry run.  Client outcomes are supplied as
one `ClientResponses` per action and one `createComment` outcome per
comment action (zipped positionally).  Returns the final mapping, the
isolated errors, and the number of comments synced. -/
def runSync (parseDate : String → Option Int) (issues : List BeadsIssue)
    (mapping : MappingFile) (actionResponses : List ClientResponses)
    (commentResponses : List (Except String Int))
    (closeResp : String → Except String Unit) (config : SyncConfig) (now : String) :
    MappingFile × List SyncError × Nat :=
  let diff := computeDiff parseDate issues mapping
  let ran := runActions config (diff.actions.zip actionResponses) mapping
  let _closedCount := handleDeletedIssues diff.deletedIssueIds ran.1 closeResp config
  let synced :=
    if config.syncComments then
      syncComments (diff.commentActions.zip commentResponses) ran.1 config.dryRun
    else (ran.1, 0)
  let m3 := if config.dryRun then synced.1 else updateLastSyncTime synced.1 now
  (m3, ran.2, synced.2)

/-! ## JSON values, `JSON.stringify(_, null, 2)` and `JSON.parse`

The persisted mapping uses `JSON.stringify(mappingFile, null, 2)` and
`JSON.parse(content)`.  These platform builtins are modelled executably
over a `Json` AST whose numbers are integers — the only numbers the engine
ever stores (issue/comment ids and `version`).  Model gaps, none of which
a claim exercises: IEEE-754 non-integral numbers (fractions/exponents are
rejected by the model's parser), lone-surrogate `\uXXXX` escapes, and
duplicate keys inside a parsed object (kept in order rather than
last-wins). -/

/-- A JSON value / the JS object produced by `JSON.parse`. -/
inductive Json where
  | null
  | bool (b : Bool)
  | num (n : Int)
  | str (s : String)
  | arr (elements : List Json)
  | obj (members : List (String × Json))

/-- The decimal digit character for `d < 10`. -/
def digitChar (d : Nat) : Char := Char.ofNat (48 + d)

/-- The decimal digits of `n` in front of `acc`, most significant first. -/
def digitCharsTo (m : Nat) (out : List Char) : List Char :=
  if m < 10 then
    digitChar m :: out
  else
    digitCharsTo (m / 10) (digitChar (m % 10) :: out)
termination_by m
decreasing_by exact Nat.div_lt_self (by omega) (by omega)

/-- The decimal digits of `n`, most significant first (`"0"` for zero). -/
def digitChars (n : Nat) : List Char := digitCharsTo n []

/-- `String(n)` for an integer: optional minus sign then digits. -/
def intChars (n : Int) : List Char :=
  if n < 0 then '-' :: digitChars n.natAbs else digitChars n.toNat

/-- Lower-case hex digit character for `d < 16`. -/
def hexDigitChar (d : Nat) : Char :=
  if d < 10 then digitChar d else Char.ofNat (87 + d)

/-- `JSON.stringify`'s escaping of one string character: quote, backslash,
the five short escapes, `\u00XX` for the remaining control characters, and
everything else verbatim.  (Lean `Char` has no lone surrogates, so the
well-formed-stringify surrogate rule is vacuous here.) -/
def escChar (c : Char) : List Char :=
  if c = '"' then ['\\', '"']
  else if c = '\\' then ['\\', '\\']
  else if c = '\x08' then ['\\', 'b']
  else if c = '\x09' then ['\\', 't']
  else if c = '\x0a' then ['\\', 'n']
  else if c = '\x0c' then ['\\', 'f']
  else if c = '\x0d' then ['\\', 'r']
  else if c.toNat < 32 then
    '\\' :: 'u' :: '0' :: '0' :: hexDigitChar (c.toNat / 16) :: [hexDigitChar (c.toNat % 16)]
  else [c]

/-- Escape a whole string body. -/
def escChars (s : List Char) : List Char := s.flatMap escChar

/-- A quoted JSON string literal. -/
def quoteChars (s : String) : List Char := '"' :: (escChars s.data ++ ['"'])

/-- The indentation at nesting `depth` for gap `"  "` (two spaces). -/
def indentChars (depth : Nat) : List Char := List.replicate (2 * depth) ' '

mutual

/-- `JSON.stringify(j, null, 2)` at nesting `depth`, as a character list. -/
def printJson : Json → Nat → List Char
  | .null, _ => ['n', 'u', 'l', 'l']
  | .num n, _ => intChars n
  | .bool true, _ => ['t', 'r', 'u', 'e']
  | .bool false, _ => ['f', 'a', 'l', 's', 'e']
  | .str s, _ => quoteChars s
  | .arr [], _ => ['[', ']']
  | .arr (e :: es), depth =>
    '[' :: (printElements (e :: es) (depth + 1) ++ '\n' :: (indentChars depth ++ [']']))
  | .obj [], _ => ['\x7b', '\x7d']
  | .obj (m :: ms), depth =>
    '\x7b' :: (printMembers (m :: ms) (depth + 1) ++ '\n' :: (indentChars depth ++ ['\x7d']))

/-- Array elements, each on its own indented line, comma-separated. -/
def printElements : List Json → Nat → List Char
  | [], _ => []
  | [e], depth => '\n' :: (indentChars depth ++ printJson e depth)
  | e :: e' :: es, depth =>
    '\n' :: (indentChars depth ++ printJson e depth ++ ',' :: printElements (e' :: es) depth)

/-- Object members, each `"key": value` on its own indented line. -/
def printMembers : List (String × Json) → Nat → List Char
  | [], _ => []
  | [(k, v)], depth =>
    '\n' :: (indentChars depth ++ quoteChars k ++ ':' :: ' ' :: printJson v depth)
  | (k, v) :: m :: ms, depth =>
    '\n' :: (indentChars depth ++ quoteChars k ++ ':' :: ' ' :: printJson v depth ++
      ',' :: printMembers (m :: ms) depth)

end

/-- JSON whitespace. -/
def isWsChar (c : Char) : Bool := c = ' ' || c = '\t' || c = '\n' || c = '\r'

/-- Drop leading JSON whitespace. -/
def skipWs : List Char → List Char
  | [] => []
  | c :: rest => if isWsChar c then skipWs rest else c :: rest

/-- Value of a hex digit character. -/
def hexVal (c : Char) : Option Nat :=
  if 48 ≤ c.toNat ∧ c.toNat ≤ 57 then some (c.toNat - 48)
  else if 97 ≤ c.toNat ∧ c.toNat ≤ 102 then some (c.toNat - 87)
  else if 65 ≤ c.toNat ∧ c.toNat ≤ 70 then some (c.toNat - 55)
  else none

/-- Parse the body of a JSON string literal after the opening quote, up to
and including the closing quote; raw control characters are rejected, as
in `JSON.parse`. -/
def parseStrBody : List Char → Option (List Char × List Char)
  | [] => none
  | '"' :: rest => some ([], rest)
  | '\\' :: '"' :: rest => (parseStrBody rest).map (fun r => ('"' :: r.1, r.2))
  | '\\' :: '\\' :: rest => (parseStrBody rest).map (fun r => ('\\' :: r.1, r.2))
  | '\\' :: '/' :: rest => (parseStrBody rest).map (fun r => ('/' :: r.1, r.2))
  | '\\' :: 'b' :: rest => (parseStrBody rest).map (fun r => ('\x08' :: r.1, r.2))
  | '\\' :: 'f' :: rest => (parseStrBody rest).map (fun r => ('\x0c' :: r.1, r.2))
  | '\\' :: 'n' :: rest => (parseStrBody rest).map (fun r => ('\x0a' :: r.1, r.2))
  | '\\' :: 'r' :: rest => (parseStrBody rest).map (fun r => ('\x0d' :: r.1, r.2))
  | '\\' :: 't' :: rest => (parseStrBody rest).map (fun r => ('\x09' :: r.1, r.2))
  | '\\' :: 'u' :: h1 :: h2 :: h3 :: h4 :: rest =>
    match hexVal h1, hexVal h2, hexVal h3, hexVal h4 with
    | some a, some b, some c, some d =>
      (parseStrBody rest).map
        (fun r => (Char.ofNat (((a * 16 + b) * 16 + c) * 16 + d) :: r.1, r.2))
    | _, _, _, _ => none
  | '\\' :: _ => none
  | c :: rest =>
    if c.toNat < 32 then none
    else (parseStrBody rest).map (fun r => (c :: r.1, r.2))

/-- Consume a maximal run of decimal digits, accumulating their value. -/
def parseDigits : List Char → Nat → Nat × List Char
  | [], acc => (acc, [])
  | c :: rest, acc =>
    if c.isDigit then parseDigits rest (10 * acc + (c.toNat - 48))
    else (acc, c :: rest)

/-- Parse a JSON natural-number literal (no leading zeros). -/
def parseNatNum : List Char → Option (Nat × List Char)
  | [] => none
  | '0' :: rest =>
    match rest with
    | c :: _ => if c.isDigit then none else some (0, rest)
    | [] => some (0, [])
  | c :: rest =>
    if c.isDigit then some (parseDigits (c :: rest) 0)
    else none

/-- Parse a JSON integer literal (the model's number grammar). -/
def parseNum (s : List Char) : Option (Json × List Char) :=
  match s with
  | '-' :: rest => (parseNatNum rest).map (fun r => (Json.num (-(r.1 : Int)), r.2))
  | _ => (parseNatNum s).map (fun r => (Json.num (r.1 : Int), r.2))

mutual

/-- Recursive-descent `JSON.parse`, fuelled; fuel `length + 1` (as passed
by `jsonParse`) is always sufficient, since every nested call first
consumes at least one input character. -/
def parseValue : Nat → List Char → Option (Json × List Char)
  | 0, _ => none
  | fuel + 1, s =>
    match skipWs s with
    | '\x7b' :: rest =>
      match skipWs rest with
      | [] => parseMembers fuel [] []
      | c :: rest' =>
        if c = '\x7d' then some (.obj [], rest') else parseMembers fuel (c :: rest') []
    | '[' :: rest =>
      match skipWs rest with
      | [] => parseElements fuel [] []
      | c :: rest' =>
        if c = ']' then some (.arr [], rest') else parseElements fuel (c :: rest') []
    | '"' :: rest => (parseStrBody rest).map (fun r => (.str (String.mk r.1), r.2))
    | 'n' :: 'u' :: 'l' :: 'l' :: rest => some (.null, rest)
    | 't' :: 'r' :: 'u' :: 'e' :: rest => some (.bool true, rest)
    | 'f' :: ('a' :: ('l' :: ('s' :: ('e' :: rest)))) => some (.bool false, rest)
    | s' => parseNum s'

/-- Members of a non-empty object; the input starts at the (ws-skipped)
first key. -/
def parseMembers : Nat → List Char → List (String × Json) → Option (Json × List Char)
  | 0, _, _ => none
  | fuel + 1, s, acc =>
    match s with
    | '"' :: rest =>
      match parseStrBody rest with
      | none => none
      | some (key, r1) =>
        match skipWs r1 with
        | ':' :: r2 =>
          match parseValue fuel r2 with
          | none => none
          | some (v, r3) =>
            match skipWs r3 with
            | ',' :: r4 => parseMembers fuel (skipWs r4) (acc ++ [(String.mk key, v)])
            | '\x7d' :: r4 => some (.obj (acc ++ [(String.mk key, v)]), r4)
            | _ => none
        | _ => none
    | _ => none

/-- Elements of a non-empty array; the input starts at the first element. -/
def parseElements : Nat → List Char → List Json → Option (Json × List Char)
  | 0, _, _ => none
  | fuel + 1, s, acc =>
    match parseValue fuel s with
    | none => none
    | some (v, r1) =>
      match skipWs r1 with
      | ',' :: r2 => parseElements fuel r2 (acc ++ [v])
      | ']' :: r2 => some (.arr (acc ++ [v]), r2)
      | _ => none

end

/-- `JSON.parse`: parse one value and require only trailing whitespace;
`none` plays the role of the thrown `SyntaxError`. -/
def jsonParse (s : String) : Option Json :=
  match parseValue (s.data.length + 1) s.data with
  | some (j, rest) => if (skipWs rest).isEmpty then some j else none
  | none => none

/-! ## Mapping (de)serialization (`mapper.ts`) -/

/-- The JSON object underlying a `CommentMapping`. -/
def commentMappingToJson (c : CommentMapping) : Json :=
  .obj [("github_comment_id", .num c.github_comment_id)]

/-- The JSON object underlying an `IssueMapping` (property insertion
order = field declaration order). -/
def issueMappingToJson (m : IssueMapping) : Json :=
  .obj [ ("github_issue_number", .num (m.github_issue_number : Int))
       , ("github_issue_id", .num m.github_issue_id)
       , ("last_sync_at", .str m.last_sync_at)
       , ("beads_updated_at", .str m.beads_updated_at)
       , ("adopted_from_external_ref", .bool m.adopted_from_external_ref)
       , ("comments", .obj (m.comments.map (fun p => (p.1, commentMappingToJson p.2)))) ]

/-- The JSON object underlying a `MappingFile`. -/
def mappingFileToJson (m : MappingFile) : Json :=
  .obj [ ("version", .num m.version)
       , ("mappings", .obj (m.mappings.map (fun p => (p.1, issueMappingToJson p.2))))
       , ("sync_metadata", .obj [("last_full_sync", .str m.sync_metadata.last_full_sync)]) ]

/-- Field access on a parsed JSON object. -/
def jget (j : Json) (k : String) : Option Json :=
  match j with
  | .obj members => alistGet members k
  | _ => none

/-- Read a JSON value as a string field. -/
def asStr : Json → Option String
  | .str s => some s
  | _ => none

/-- Read a JSON value as an integer field. -/
def asInt : Json → Option Int
  | .num n => some n
  | _ => none

/-- Read a JSON value as a non-negative integer field. -/
def asNat : Json → Option Nat
  | .num n => if n < 0 then none else some n.toNat
  | _ => none

/-- Read a JSON value as a boolean field. -/
def asBool : Json → Option Bool
  | .bool b => some b
  | _ => none

/-- Reading a parsed `CommentMapping` object field-for-field (the TS
`as MappingFile` cast performs no validation; this function is the model
of the consumer reading the cast object's fields). -/
def commentMappingFromJson (j : Json) : Option CommentMapping :=
  ((jget j "github_comment_id").bind asInt).map (fun n => ⟨n⟩)

/-- Reading a parsed `IssueMapping` object field-for-field. -/
def issueMappingFromJson (j : Json) : Option IssueMapping := do
  let number ← (jget j "github_issue_number").bind asNat
  let ghId ← (jget j "github_issue_id").bind asInt
  let lastSync ← (jget j "last_sync_at").bind asStr
  let beadsUpdated ← (jget j "beads_updated_at").bind asStr
  let adopted ← (jget j "adopted_from_external_ref").bind asBool
  let commentsJson ← jget j "comments"
  match commentsJson with
  | .obj kvs =>
    let comments ← kvs.mapM
      (fun p => (commentMappingFromJson p.2).map (fun c => (p.1, c)))
    pure { github_issue_number := number
         , github_issue_id := ghId
         , last_sync_at := lastSync
         , beads_updated_at := beadsUpdated
         , adopted_from_external_ref := adopted
         , comments := comments }
  | _ => none

/-- Reading a parsed `MappingFile` object field-for-field. -/
def mappingFileFromJson (j : Json) : Option MappingFile := do
  let version ← (jget j "version").bind asInt
  let mappingsJson ← jget j "mappings"
  let meta ← jget j "sync_metadata"
  let lastFullSync ← (jget meta "last_full_sync").bind asStr
  match mappingsJson with
  | .obj kvs =>
    let mappings ← kvs.mapM
      (fun p => (issueMappingFromJson p.2).map (fun im => (p.1, im)))
    pure { version := version
         , mappings := mappings
         , sync_metadata := { last_full_sync := lastFullSync } }
  | _ => none

/-- JavaScript `String.prototype.trim`'s whitespace class, restricted to
the ASCII whitespace any serialized mapping can contain. -/
def isJsWs (c : Char) : Bool :=
  c = ' ' || c = '\t' || c = '\n' || c = '\r' || c = '\x0b' || c = '\x0c'

/-- `content.trim()` — strip leading and trailing whitespace (executable,
unlike `String.trim`). -/
def jsTrim (s : String) : String :=
  String.mk (((s.data.dropWhile isJsWs).reverse.dropWhile isJsWs).reverse)

/-- `serializeMapping` — `JSON.stringify(mappingFile, null, 2)`. -/
def serializeMapping (mappingFile : MappingFile) : String :=
  String.mk (printJson (mappingFileToJson mappingFile) 0)

/-- `deserializeMapping` — empty / whitespace-only content yields a fresh
empty mapping (`createEmptyMapping`, wall clock as `now`); otherwise the
content is given to `JSON.parse`, whose thrown `SyntaxError` is `none`.
The result is the parsed JS object (the TS `as MappingFile` cast performs
no validation), represented as `Json`. -/
def deserializeMapping (now : String) (content : String) : Option Json :=
  if jsTrim content = "" then some (mappingFileToJson (createEmptyMapping now))
  else jsonParse content

/-! ## Basic lemmas about the diff algorithm -/

/-- Every status action contributed by one issue carries that issue. -/
theorem diffIssue_beadsIssue_eq (pd : String → Option Int) (M : MappingFile)
    (issue : BeadsIssue) : ∀ a ∈ (diffIssue pd M issue).1, a.beadsIssue = issue := by
  intro a ha
  unfold diffIssue at ha
  repeat' split at ha
  all_goals simp_all

/-- Every comment action produced by `getNewComments` for an issue carries
that issue's id and the given issue number. -/
theorem getNewComments_spec (issue : BeadsIssue) (em : Option IssueMapping) (n : Nat) :
    ∀ ca ∈ getNewComments issue em n, ca.beadsIssueId = issue.id ∧ ca.githubIssueNumber = n := by
  intro ca hca
  unfold getNewComments at hca
  repeat' split at hca
  all_goals simp_all
  all_goals (obtain ⟨c, -, rfl⟩ := hca; exact ⟨rfl, rfl⟩)

/-- Every comment action contributed by one issue carries that issue's id. -/
theorem diffIssue_commentId_eq (pd : String → Option Int) (M : MappingFile)
    (issue : BeadsIssue) : ∀ ca ∈ (diffIssue pd M issue).2, ca.beadsIssueId = issue.id := by
  intro ca hca
  unfold diffIssue at hca
  repeat' split at hca
  all_goals dsimp only at hca
  all_goals first
    | exact (getNewComments_spec issue _ _ ca hca).1
    | simp_all

/-- Membership in the diff's action list is membership in some issue's
contribution. -/
theorem mem_computeDiff_actions (pd : String → Option Int) (S : List BeadsIssue)
    (M : MappingFile) (a : SyncAction) :
    a ∈ (computeDiff pd S M).actions ↔ ∃ issue ∈ S, a ∈ (diffIssue pd M issue).1 := by
  simp [computeDiff, List.mem_flatMap]

/-- Membership in the diff's comment-action list. -/
theorem mem_computeDiff_commentActions (pd : String → Option Int) (S : List BeadsIssue)
    (M : MappingFile) (ca : CommentSyncAction) :
    ca ∈ (computeDiff pd S M).commentActions ↔ ∃ issue ∈ S, ca ∈ (diffIssue pd M issue).2 := by
  simp [computeDiff, List.mem_flatMap]

/-- With pairwise-distinct snapshot ids, the actions of the diff that carry
record `r` are exactly `r`'s own contribution. -/
theorem computeDiff_actions_filter (pd : String → Option Int) (S : List BeadsIssue)
    (M : MappingFile) (r : BeadsIssue) (hnd : (S.map (fun i => i.id)).Nodup) (hr : r ∈ S) :
    (computeDiff pd S M).actions.filter (fun a => a.beadsIssue == r) = (diffIssue pd M r).1 := by
  show (S.flatMap (fun issue => (diffIssue pd M issue).1)).filter (fun a => a.beadsIssue == r)
      = (diffIssue pd M r).1
  induction S with
  | nil => cases hr
  | cons s S' ih =>
    simp only [List.map_cons, List.nodup_cons] at hnd
    simp only [List.flatMap_cons, List.filter_append]
    rcases List.mem_cons.mp hr with rfl | hr'
    · have h1 : (diffIssue pd M r).1.filter (fun a => a.beadsIssue == r)
          = (diffIssue pd M r).1 := by
        apply List.filter_eq_self.mpr
        intro a ha
        simp [diffIssue_beadsIssue_eq pd M r a ha]
      have h2 : (S'.flatMap (fun issue => (diffIssue pd M issue).1)).filter
          (fun a => a.beadsIssue == r) = [] := by
        apply List.filter_eq_nil_iff.mpr
        intro a ha
        obtain ⟨issue, hiss, hmem⟩ := List.mem_flatMap.mp ha
        have hbe := diffIssue_beadsIssue_eq pd M issue a hmem
        simp only [hbe, beq_iff_eq]
        intro h
        exact hnd.1 (List.mem_map.mpr ⟨issue, hiss, by rw [h]⟩)
      rw [h1, h2, List.append_nil]
    · have hsid : s.id ≠ r.id := by
        intro h
        exact hnd.1 (List.mem_map.mpr ⟨r, hr', h.symm⟩)
      have h1 : (diffIssue pd M s).1.filter (fun a => a.beadsIssue == r) = [] := by
        apply List.filter_eq_nil_iff.mpr
        intro a ha
        have hbe := diffIssue_beadsIssue_eq pd M s a ha
        simp only [hbe, beq_iff_eq]
        intro h
        exact hsid (by rw [h])
      rw [h1, List.nil_append]
      exact ih hnd.2 hr'

/-- With pairwise-distinct snapshot ids, the comment actions of the diff
carrying record `r`'s id are exactly `r`'s own contribution. -/
theorem computeDiff_commentActions_filter (pd : String → Option Int) (S : List BeadsIssue)
    (M : MappingFile) (r : BeadsIssue) (hnd : (S.map (fun i => i.id)).Nodup) (hr : r ∈ S) :
    (computeDiff pd S M).commentActions.filter (fun ca => ca.beadsIssueId == r.id)
      = (diffIssue pd M r).2 := by
  show (S.flatMap (fun issue => (diffIssue pd M issue).2)).filter
      (fun ca => ca.beadsIssueId == r.id) = (diffIssue pd M r).2
  induction S with
  | nil => cases hr
  | cons s S' ih =>
    simp only [List.map_cons, List.nodup_cons] at hnd
    simp only [List.flatMap_cons, List.filter_append]
    rcases List.mem_cons.mp hr with rfl | hr'
    · have h1 : (diffIssue pd M r).2.filter (fun ca => ca.beadsIssueId == r.id)
          = (diffIssue pd M r).2 := by
        apply List.filter_eq_self.mpr
        intro ca hca
        simp [diffIssue_commentId_eq pd M r ca hca]
      have h2 : (S'.flatMap (fun issue => (diffIssue pd M issue).2)).filter
          (fun ca => ca.beadsIssueId == r.id) = [] := by
        apply List.filter_eq_nil_iff.mpr
        intro ca hca
        obtain ⟨issue, hiss, hmem⟩ := List.mem_flatMap.mp hca
        have hbe := diffIssue_commentId_eq pd M issue ca hmem
        simp only [hbe, beq_iff_eq]
        intro h
        exact hnd.1 (List.mem_map.mpr ⟨issue, hiss, h⟩)
      rw [h1, h2, List.append_nil]
    · have hsid : s.id ≠ r.id := by
        intro h
        exact hnd.1 (List.mem_map.mpr ⟨r, hr', h.symm⟩)
      have h1 : (diffIssue pd M s).2.filter (fun ca => ca.beadsIssueId == r.id) = [] := by
        apply List.filter_eq_nil_iff.mpr
        intro ca hca
        have hbe := diffIssue_commentId_eq pd M s ca hca
        simp only [hbe, beq_iff_eq]
        exact hsid
      rw [h1, List.nil_append]
      exact ih hnd.2 hr'

/-- A record with an existing Link and a false staleness test contributes
no status action. -/
theorem diffIssue_fst_of_not_needsUpdate (pd : String → Option Int) (M : MappingFile)
    (r : BeadsIssue) (lnk : IssueMapping) (hl : getMapping M r.id = some lnk)
    (hnu : needsUpdate pd r lnk = false) : (diffIssue pd M r).1 = [] := by
  unfold diffIssue
  rw [hl]
  dsimp only
  rw [hnu]
  simp

/-! ## Claim theorems: staleness (C2) and deletion exactness (C3) -/

/-- **C2.** Staleness is strict greater-than and monotone: for every record
`r` in the snapshot that has a Link `lnk` in the map, if
`parse (r.updated_at) ≤ parse (lnk.beads_updated_at)` (both parses
succeeding, with equality included) then `computeDiff` emits no
create/update/close/adopt action carrying `r`. -/
theorem staleness_monotone (pd : String → Option Int) (S : List BeadsIssue)
    (M : MappingFile) (r : BeadsIssue) (lnk : IssueMapping) (x y : Int)
    (hr : r ∈ S) (hl : getMapping M r.id = some lnk)
    (hx : pd r.updated_at = some x) (hy : pd lnk.beads_updated_at = some y)
    (hxy : x ≤ y) :
    (computeDiff pd S M).actions.filter
      (fun a => a.beadsIssue == r &&
        (a.type == SyncActionType.create || a.type == SyncActionType.update ||
         a.type == SyncActionType.close || a.type == SyncActionType.adopt)) = [] := by
  have hnu : needsUpdate pd r lnk = false := by
    unfold needsUpdate
    rw [hx, hy]
    simp
    omega
  apply List.filter_eq_nil_iff.mpr
  intro a ha
  obtain ⟨issue, hiss, hmem⟩ := (mem_computeDiff_actions pd S M a).mp ha
  have hbe := diffIssue_beadsIssue_eq pd M issue a hmem
  simp only [Bool.and_eq_true, beq_iff_eq, hbe]
  rintro ⟨rfl, -⟩
  rw [diffIssue_fst_of_not_needsUpdate pd M issue lnk hl hnu] at hmem
  cases hmem

/-- A minimal issue record for concrete instantiations. -/
def sampleIssue (id : String) (status : BeadsStatus) (updatedAt : String) : BeadsIssue :=
  { id := id
  , title := "T"
  , description := none
  , design := none
  , acceptance_criteria := none
  , notes := none
  , status := status
  , priority := none
  , issue_type := none
  , assignee := none
  , labels := none
  , dependencies := none
  , external_ref := none
  , close_reason := none
  , comments := none
  , created_at := "2025-01-01T00:00:00Z"
  , updated_at := updatedAt
  , estimated_time := none }

/-- A concrete timestamp parse for instantiations: string length in
milliseconds. -/
def pdW : String → Option Int := fun s => some (s.length : Int)

/-- A concrete Link for instantiations. -/
def lnkW : IssueMapping :=
  { github_issue_number := 7
  , github_issue_id := 70
  , last_sync_at := "s"
  , beads_updated_at := "AAA"
  , adopted_from_external_ref := false
  , comments := [] }

/-- A concrete record whose timestamp is not newer than the watermark. -/
def rC2 : BeadsIssue := sampleIssue "bd-1" BeadsStatus.«open» "AA"

/-- A concrete map linking `rC2`. -/
def mC2 : MappingFile :=
  { version := 1, mappings := [("bd-1", lnkW)], sync_metadata := { last_full_sync := "m" } }

/-- Witness for C2 at a concrete snapshot/map (`parse "AA" = 2 ≤ 3 =
parse "AAA"`). -/
theorem staleness_monotone_witness :
    (computeDiff pdW [rC2] mC2).actions.filter
      (fun a => a.beadsIssue == rC2 &&
        (a.type == SyncActionType.create || a.type == SyncActionType.update ||
         a.type == SyncActionType.close || a.type == SyncActionType.adopt)) = [] :=
  staleness_monotone pdW [rC2] mC2 rC2 lnkW 2 3 (by simp) (by decide)
    rfl rfl (by decide)

/-- **C3.** Deletion set exactness: `deletedIssueIds` is exactly
`{ids in the map} − {ids in the snapshot}` as a set.  `computeDiff` takes
the map by value and returns only a `DiffResult` — the embedding is pure,
reflecting that the source only reads the map. -/
theorem deletion_set_exactness (pd : String → Option Int) (S : List BeadsIssue)
    (M : MappingFile) :
    (computeDiff pd S M).deletedIssueIds.toFinset =
      (getMappedBeadsIds M).toFinset \ (S.map (fun i => i.id)).toFinset := by
  ext x
  simp [computeDiff, List.mem_filter]

/-! ## Claim theorems: adoption classification (C4) and comment dedup (C5) -/

/-- With no existing Link there is no comment sub-mapping, so every comment
of the record is new. -/
theorem getNewComments_none_eq (issue : BeadsIssue) (n : Nat) :
    getNewComments issue none n =
      (issue.comments.getD []).map
        (fun c => { beadsIssueId := issue.id, githubIssueNumber := n, comment := c }) := by
  unfold getNewComments
  cases h : issue.comments with
  | none => rfl
  | some cs =>
    cases cs with
    | nil => rfl
    | cons c cs' => simp [List.filter_eq_self]

/-- With an existing Link, exactly the comments whose id is not a key of
the Link's `comments` object are new. -/
theorem getNewComments_some_eq (issue : BeadsIssue) (em : IssueMapping) (n : Nat) :
    getNewComments issue (some em) n =
      ((issue.comments.getD []).filter
        (fun c => !((em.comments.map (fun p => p.1)).contains c.id))).map
        (fun c => { beadsIssueId := issue.id, githubIssueNumber := n, comment := c }) := by
  unfold getNewComments
  cases h : issue.comments with
  | none => rfl
  | some cs =>
    cases cs with
    | nil => rfl
    | cons c cs' => simp

/-- The empty string never parses as an external reference. -/
theorem parseExternalRef_empty : parseExternalRef "" = none := by decide

/-- A record with no Link and an adoptable external reference contributes
exactly one adopt action plus its full comment list. -/
theorem diffIssue_adopt_eq (pd : String → Option Int) (M : MappingFile) (r : BeadsIssue)
    (ref : String) (n : Nat) (hl : getMapping M r.id = none)
    (href : r.external_ref = some ref) (hp : parseExternalRef ref = some n) :
    diffIssue pd M r =
      ([{ type := SyncActionType.adopt, beadsIssue := r, githubIssueNumber := some n,
          reason := "Adopting existing GitHub issue from external_ref" }],
       getNewComments r none n) := by
  have hne : ref.isEmpty = false := by
    cases h : ref.isEmpty with
    | false => rfl
    | true =>
      rw [(String.isEmpty_iff ref).mp h] at hp
      rw [parseExternalRef_empty] at hp
      cases hp
  unfold diffIssue
  rw [hl]
  dsimp only
  rw [href]
  dsimp only
  rw [hne]
  simp [hp]

/-- A record with no Link and no adoptable external reference contributes
exactly one create action and no comment actions. -/
theorem diffIssue_create_eq (pd : String → Option Int) (M : MappingFile) (r : BeadsIssue)
    (hl : getMapping M r.id = none)
    (hnoref : ∀ s, r.external_ref = some s → parseExternalRef s = none) :
    diffIssue pd M r =
      ([{ type := SyncActionType.create, beadsIssue := r, githubIssueNumber := none,
          reason := "New beads issue" }], []) := by
  unfold diffIssue
  rw [hl]
  dsimp only
  cases h : r.external_ref with
  | none => rfl
  | some ref =>
    cases he : ref.isEmpty with
    | true => simp [he]
    | false => simp [he, hnoref ref h]

/-- A record with a Link contributes the Link-relative new comments. -/
theorem diffIssue_snd_of_link (pd : String → Option Int) (M : MappingFile) (r : BeadsIssue)
    (em : IssueMapping) (hl : getMapping M r.id = some em) :
    (diffIssue pd M r).2 = getNewComments r (some em) em.github_issue_number := by
  unfold diffIssue
  rw [hl]

/-- **C4.** Adoption classification: for a snapshot record `r` (ids
pairwise distinct) with no existing Link — if `r.external_ref` matches the
anchored `gh-<digits>` pattern with value `n`, the diff emits exactly one
adopt action targeting `n` plus one `CommentAction` per comment of `r`;
if the reference is absent or fails the pattern, it emits a single create
action (and no comment actions).  The diff is a total function — a
non-matching reference falls through to `create`, never to an error. -/
theorem adoption_classification (pd : String → Option Int) (S : List BeadsIssue)
    (M : MappingFile) (r : BeadsIssue)
    (hnd : (S.map (fun i => i.id)).Nodup) (hr : r ∈ S)
    (hl : getMapping M r.id = none) :
    (∀ ref n, r.external_ref = some ref → parseExternalRef ref = some n →
      (computeDiff pd S M).actions.filter (fun a => a.beadsIssue == r)
          = [{ type := SyncActionType.adopt, beadsIssue := r, githubIssueNumber := some n,
               reason := "Adopting existing GitHub issue from external_ref" }] ∧
      (computeDiff pd S M).commentActions.filter (fun ca => ca.beadsIssueId == r.id)
          = (r.comments.getD []).map
              (fun c => { beadsIssueId := r.id, githubIssueNumber := n, comment := c }))
    ∧ ((∀ s, r.external_ref = some s → parseExternalRef s = none) →
      (computeDiff pd S M).actions.filter (fun a => a.beadsIssue == r)
          = [{ type := SyncActionType.create, beadsIssue := r, githubIssueNumber := none,
               reason := "New beads issue" }] ∧
      (computeDiff pd S M).commentActions.filter (fun ca => ca.beadsIssueId == r.id) = []) := by
  constructor
  · intro ref n href hp
    have hd := diffIssue_adopt_eq pd M r ref n hl href hp
    constructor
    · rw [computeDiff_actions_filter pd S M r hnd hr, hd]
    · rw [computeDiff_commentActions_filter pd S M r hnd hr, hd,
        getNewComments_none_eq]
  · intro hnoref
    have hd := diffIssue_create_eq pd M r hl hnoref
    constructor
    · rw [computeDiff_actions_filter pd S M r hnd hr, hd]
    · rw [computeDiff_commentActions_filter pd S M r hnd hr, hd]

/-- A concrete adoptable record with one comment. -/
def rAdopt : BeadsIssue :=
  { sampleIssue "bd-adopt" BeadsStatus.«open» "AA" with
    external_ref := some "gh-99"
  , comments := some [{ id := "1", author := "alice", created_at := "t1", body := "b1" }] }

/-- A concrete record with a non-matching external reference. -/
def rCreate : BeadsIssue :=
  { sampleIssue "bd-create" BeadsStatus.«open» "AA" with external_ref := some "JIRA-123" }

/-- An empty concrete map. -/
def mEmpty : MappingFile :=
  { version := 1, mappings := [], sync_metadata := { last_full_sync := "m" } }

/-- Witness for C4: `gh-99` adopts issue 99 (with its one comment),
`JIRA-123` falls through to a single create. -/
theorem adoption_classification_witness :
    ((computeDiff pdW [rAdopt, rCreate] mEmpty).actions.filter
        (fun a => a.beadsIssue == rAdopt)
      = [{ type := SyncActionType.adopt, beadsIssue := rAdopt, githubIssueNumber := some 99,
           reason := "Adopting existing GitHub issue from external_ref" }] ∧
     (computeDiff pdW [rAdopt, rCreate] mEmpty).commentActions.filter
        (fun ca => ca.beadsIssueId == rAdopt.id)
      = [{ beadsIssueId := rAdopt.id, githubIssueNumber := 99,
           comment := { id := "1", author := "alice", created_at := "t1", body := "b1" } }]) ∧
    ((computeDiff pdW [rAdopt, rCreate] mEmpty).actions.filter
        (fun a => a.beadsIssue == rCreate)
      = [{ type := SyncActionType.create, beadsIssue := rCreate, githubIssueNumber := none,
           reason := "New beads issue" }] ∧
     (computeDiff pdW [rAdopt, rCreate] mEmpty).commentActions.filter
        (fun ca => ca.beadsIssueId == rCreate.id) = []) := by
  constructor
  · exact (adoption_classification pdW [rAdopt, rCreate] mEmpty rAdopt (by decide) (by decide)
      (by decide)).1 "gh-99" 99 (by decide) (by decide)
  · exact (adoption_classification pdW [rAdopt, rCreate] mEmpty rCreate (by decide) (by decide)
      (by decide)).2 (by decide)

/-- **C5.** Comment dedup, independent of staleness: for a snapshot record
`r` (ids pairwise distinct) with an existing Link `em`, the diff emits
exactly one `CommentAction` for each comment of `r` whose id is not a key
of `em.comments`, and none for already-keyed comments — with no staleness
hypothesis anywhere. -/
theorem comment_dedup (pd : String → Option Int) (S : List BeadsIssue)
    (M : MappingFile) (r : BeadsIssue) (em : IssueMapping)
    (hnd : (S.map (fun i => i.id)).Nodup) (hr : r ∈ S)
    (hl : getMapping M r.id = some em) :
    (computeDiff pd S M).commentActions.filter (fun ca => ca.beadsIssueId == r.id)
      = ((r.comments.getD []).filter
          (fun c => !((em.comments.map (fun p => p.1)).contains c.id))).map
          (fun c => { beadsIssueId := r.id,
                      githubIssueNumber := em.github_issue_number, comment := c }) := by
  rw [computeDiff_commentActions_filter pd S M r hnd hr,
    diffIssue_snd_of_link pd M r em hl, getNewComments_some_eq]

/-- A concrete Link whose `comments` object already has key `"1"`. -/
def lnkC5 : IssueMapping :=
  { github_issue_number := 42
  , github_issue_id := 100
  , last_sync_at := "s"
  , beads_updated_at := "AAA"
  , adopted_from_external_ref := false
  , comments := [("1", { github_comment_id := 999 })] }

/-- A concrete record with comments `"1"` (already synced) and `"2"` (new). -/
def rC5 : BeadsIssue :=
  { sampleIssue "bd-comments" BeadsStatus.«open» "AA" with
    comments := some
      [{ id := "1", author := "alice", created_at := "t1", body := "b1" },
       { id := "2", author := "bob", created_at := "t2", body := "b2" }] }

/-- A concrete map linking `rC5` through `lnkC5`. -/
def mC5 : MappingFile :=
  { version := 1, mappings := [("bd-comments", lnkC5)], sync_metadata := { last_full_sync := "m" } }

/-- Witness for C5 at the spec's example: exactly one `CommentAction`, for
comment id `"2"`. -/
theorem comment_dedup_witness :
    (computeDiff pdW [rC5] mC5).commentActions.filter
        (fun ca => ca.beadsIssueId == rC5.id)
      = ((rC5.comments.getD []).filter
          (fun c => !((lnkC5.comments.map (fun p => p.1)).contains c.id))).map
          (fun c => { beadsIssueId := rC5.id,
                      githubIssueNumber := lnkC5.github_issue_number, comment := c }) :=
  comment_dedup pdW [rC5] mC5 rC5 lnkC5 (by decide) (by decide) (by decide)

/-! ## Association-list and map lemmas -/

/-- Reading back the key just written. -/
theorem alistGet_alistSet_self {α : Type} (l : List (String × α)) (k : String) (v : α) :
    alistGet (alistSet l k v) k = some v := by
  induction l with
  | nil => simp [alistGet, alistSet]
  | cons p rest ih =>
    obtain ⟨k', v'⟩ := p
    by_cases h : k' = k
    · simp [alistSet, alistGet, h]
    · simp [alistSet, alistGet, h, ih]

/-- Writing one key leaves every other key unchanged. -/
theorem alistGet_alistSet_ne {α : Type} (l : List (String × α)) (k k' : String) (v : α)
    (h : k ≠ k') : alistGet (alistSet l k v) k' = alistGet l k' := by
  induction l with
  | nil => simp [alistGet, alistSet, h]
  | cons p rest ih =>
    obtain ⟨k₀, v₀⟩ := p
    by_cases h0 : k₀ = k
    · subst h0
      simp [alistSet, alistGet, h]
    · simp [alistSet, alistGet, h0, ih]

/-- `getMapping` after `setMapping` at the same id. -/
theorem getMapping_setMapping_self (M : MappingFile) (id : String) (em : IssueMapping) :
    getMapping (setMapping M id em) id = some em :=
  alistGet_alistSet_self M.mappings id em

/-- `getMapping` after `setMapping` at a different id. -/
theorem getMapping_setMapping_ne (M : MappingFile) (id id' : String) (em : IssueMapping)
    (h : id ≠ id') : getMapping (setMapping M id em) id' = getMapping M id' :=
  alistGet_alistSet_ne M.mappings id id' em h

/-- `updateLastSyncTime` does not affect the mappings. -/
theorem getMapping_updateLastSyncTime (M : MappingFile) (now id : String) :
    getMapping (updateLastSyncTime M now) id = getMapping M id := rfl

/-- `setCommentMapping` at another id leaves a lookup unchanged. -/
theorem getMapping_setCommentMapping_ne (M : MappingFile) (id cid : String) (g : Int)
    (id' : String) (h : id ≠ id') :
    getMapping (setCommentMapping M id cid g) id' = getMapping M id' := by
  unfold setCommentMapping
  cases hm : getMapping M id with
  | none => rfl
  | some em => exact getMapping_setMapping_ne M id id' _ h

/-- `setCommentMapping` at an id with a Link rewrites exactly that Link's
comment object. -/
theorem getMapping_setCommentMapping_self (M : MappingFile) (id cid : String) (g : Int)
    (em : IssueMapping) (hm : getMapping M id = some em) :
    getMapping (setCommentMapping M id cid g) id
      = some { em with comments := alistSet em.comments cid ⟨g⟩ } := by
  unfold setCommentMapping
  rw [hm]
  exact getMapping_setMapping_self M id _

/-! ## Characterizations of `executeAction` -/

/-- Whether a mirror call closes an issue. -/
def isCloseCall : MirrorCall → Bool
  | .closeIssue _ _ => true
  | _ => false

/-- A successful non-dry-run `create` inserts a fresh Link (watermark =
the record's `updated_at`, adopted flag `false`, empty comment map),
reports no error, and issues no closing call. -/
theorem executeAction_create_ok (a : SyncAction) (M : MappingFile) (resp : ClientResponses)
    (config : SyncConfig) (n : Nat) (gid : Int)
    (ha : a.type = SyncActionType.create) (hdr : config.dryRun = false)
    (hcr : resp.createIssue = .ok (n, gid)) :
    (executeAction a M resp config).mapping
        = setMapping M a.beadsIssue.id
            (createIssueMapping n gid a.beadsIssue.updated_at false resp.now)
    ∧ (executeAction a M resp config).error = none
    ∧ (executeAction a M resp config).calls.filter isCloseCall = [] := by
  unfold executeAction
  rw [ha, hdr, hcr]
  cases hass : a.beadsIssue.assignee <;> simp [isCloseCall, hass]

/-- A successful non-dry-run `update` advances the watermark in place and
reports no error. -/
theorem executeAction_update_ok (a : SyncAction) (M : MappingFile) (resp : ClientResponses)
    (config : SyncConfig)
    (ha : a.type = SyncActionType.update) (hdr : config.dryRun = false)
    (hup : resp.updateIssue = .ok ()) :
    (executeAction a M resp config).mapping
        = setWatermark M a.beadsIssue.id a.beadsIssue.updated_at resp.now
    ∧ (executeAction a M resp config).error = none := by
  unfold executeAction
  rw [ha, hdr, hup]
  cases hass : a.beadsIssue.assignee <;> simp [hass]

/-- A fully successful non-dry-run `close` advances the watermark in place
and reports no error. -/
theorem executeAction_close_ok (a : SyncAction) (M : MappingFile) (resp : ClientResponses)
    (config : SyncConfig)
    (ha : a.type = SyncActionType.close) (hdr : config.dryRun = false)
    (hup : resp.updateIssue = .ok ()) (hcl : resp.closeIssue = .ok ()) :
    (executeAction a M resp config).mapping
        = setWatermark M a.beadsIssue.id a.beadsIssue.updated_at resp.now
    ∧ (executeAction a M resp config).error = none := by
  unfold executeAction
  rw [ha, hdr, hup, hcl]
  cases hass : a.beadsIssue.assignee <;> simp [hass]

/-- A successful non-dry-run `adopt` (target found) inserts a fresh Link
with the adopted flag set and reports no error. -/
theorem executeAction_adopt_ok (a : SyncAction) (M : MappingFile) (resp : ClientResponses)
    (config : SyncConfig) (n : Nat) (gid : Int)
    (ha : a.type = SyncActionType.adopt) (hdr : config.dryRun = false)
    (hget : resp.getIssue = .ok (some (n, gid))) (hup : resp.updateIssue = .ok ()) :
    (executeAction a M resp config).mapping
        = setMapping M a.beadsIssue.id
            (createIssueMapping n gid a.beadsIssue.updated_at true resp.now)
    ∧ (executeAction a M resp config).error = none := by
  unfold executeAction
  rw [ha, hdr, hget, hup]
  cases hass : a.beadsIssue.assignee <;> simp [hass]

/-- A successful non-dry-run `reopen` leaves the mapping untouched and
reports no error. -/
theorem executeAction_reopen_ok (a : SyncAction) (M : MappingFile) (resp : ClientResponses)
    (config : SyncConfig)
    (ha : a.type = SyncActionType.reopen) (hdr : config.dryRun = false)
    (hro : resp.reopenIssue = .ok ()) (hup : resp.updateIssue = .ok ()) :
    (executeAction a M resp config).mapping = M
    ∧ (executeAction a M resp config).error = none := by
  unfold executeAction
  rw [ha, hdr, hro, hup]
  cases hass : a.beadsIssue.assignee <;> simp [hass]

/-- Dry-run execution never mutates the mapping and never errors. -/
theorem executeAction_dryRun (a : SyncAction) (M : MappingFile) (resp : ClientResponses)
    (config : SyncConfig) (hdr : config.dryRun = true) :
    (executeAction a M resp config).mapping = M
    ∧ (executeAction a M resp config).error = none := by
  unfold executeAction
  cases hat : a.type <;> rw [hdr] <;>
    cases hass : a.beadsIssue.assignee <;> simp [hass]

/-- Whenever `executeAction` reports an error, the mapping is returned
untouched and the error is the structured record of the failing action. -/
theorem executeAction_error_eq (a : SyncAction) (M : MappingFile) (resp : ClientResponses)
    (config : SyncConfig) (e : SyncError)
    (herr : (executeAction a M resp config).error = some e) :
    (executeAction a M resp config).mapping = M
    ∧ e.beadsIssueId = a.beadsIssue.id ∧ e.action = a.type := by
  unfold executeAction at herr ⊢
  cases hat : a.type <;> rw [hat] at herr <;>
    cases hdr : config.dryRun <;> rw [hdr] at herr <;>
    dsimp only at herr
  all_goals (try cases herr)
  all_goals (repeat' split at herr)
  all_goals (try cases herr)
  all_goals simp_all

/-- Unfolding equation for the action loop. -/
theorem runActions_cons (config : SyncConfig) (a : SyncAction) (resp : ClientResponses)
    (rest : List (SyncAction × ClientResponses)) (M : MappingFile) :
    runActions config ((a, resp) :: rest) M
      = ((runActions config rest (executeAction a M resp config).mapping).1,
         (executeAction a M resp config).error.toList
           ++ (runActions config rest (executeAction a M resp config).mapping).2) := rfl

/-! ## Claim theorems: failure isolation (C7) -/

/-- **C7.** Per-action failure isolation with map atomicity: if executing
one action errors, the error is the structured record
`{beadsIssueId, action kind, message}` of that action, the mapping receives
no mutation from the failed action, and the loop continues with the rest of
the batch from the unchanged mapping, merely prepending the error to the
errors of the rest — a single failure never aborts the batch. -/
theorem failure_isolation (a : SyncAction) (M : MappingFile) (resp : ClientResponses)
    (config : SyncConfig) (rest : List (SyncAction × ClientResponses)) (e : SyncError)
    (herr : (executeAction a M resp config).error = some e) :
    (executeAction a M resp config).mapping = M
    ∧ e.beadsIssueId = a.beadsIssue.id ∧ e.action = a.type
    ∧ runActions config ((a, resp) :: rest) M
        = ((runActions config rest M).1, e :: (runActions config rest M).2) := by
  obtain ⟨hm, hid, hact⟩ := executeAction_error_eq a M resp config e herr
  refine ⟨hm, hid, hact, ?_⟩
  rw [runActions_cons, hm, herr]
  rfl

/-- Client responses whose create call throws. -/
def respFail : ClientResponses :=
  { validAssignees := []
  , createIssue := .error "boom"
  , updateIssue := .ok ()
  , closeIssue := .ok ()
  , getIssue := .ok none
  , reopenIssue := .ok ()
  , now := "N" }

/-- Client responses with every call succeeding. -/
def respOk : ClientResponses :=
  { validAssignees := []
  , createIssue := .ok (11, 110)
  , updateIssue := .ok ()
  , closeIssue := .ok ()
  , getIssue := .ok (some (12, 120))
  , reopenIssue := .ok ()
  , now := "N" }

/-- A concrete engine configuration (non-dry-run). -/
def configW : SyncConfig :=
  { dryRun := false
  , syncComments := true
  , labelPref := ""
  , addSyncMarker := true
  , closeDeleted := true }

/-- A concrete create action. -/
def aC7 : SyncAction :=
  { type := SyncActionType.create
  , beadsIssue := sampleIssue "bd-7" BeadsStatus.«open» "AA"
  , githubIssueNumber := none
  , reason := "New beads issue" }

/-- The structured error record for `aC7` failing with `"boom"`. -/
def eC7 : SyncError := { beadsIssueId := "bd-7", action := SyncActionType.create, message := "boom" }

/-- Witness for C7: a failing create leaves the map untouched, produces the
structured error, and the loop result is the rest's result with the error
prepended. -/
theorem failure_isolation_witness :
    (executeAction aC7 mEmpty respFail configW).mapping = mEmpty
    ∧ eC7.beadsIssueId = aC7.beadsIssue.id ∧ eC7.action = aC7.type
    ∧ runActions configW [(aC7, respFail)] mEmpty
        = ((runActions configW [] mEmpty).1, eC7 :: (runActions configW [] mEmpty).2) :=
  failure_isolation aC7 mEmpty respFail configW [] eC7 (by decide)

/-! ## Claim theorems: closed-record create (C10) -/

/-- A record whose Link watermark already equals its `updated_at` is never
stale, whatever `parseDate` does (equal strings parse equally, and `NaN`
compares false). -/
theorem needsUpdate_eq_false_of_eq_watermark (pd : String → Option Int) (r : BeadsIssue)
    (em : IssueMapping) (hwm : em.beads_updated_at = r.updated_at) :
    needsUpdate pd r em = false := by
  unfold needsUpdate
  rw [hwm]
  cases pd r.updated_at <;> simp

/-- Against any map whose entry for `r` carries `r.updated_at` as
watermark, the diff emits no close action for `r`. -/
theorem computeDiff_no_close_of_watermark (pd : String → Option Int) (S : List BeadsIssue)
    (M₂ : MappingFile) (r : BeadsIssue) (em₂ : IssueMapping)
    (h₂ : getMapping M₂ r.id = some em₂) (hwm : em₂.beads_updated_at = r.updated_at) :
    (computeDiff pd S M₂).actions.filter
      (fun x => x.beadsIssue == r && x.type == SyncActionType.close) = [] := by
  apply List.filter_eq_nil_iff.mpr
  intro a ha
  obtain ⟨issue, hiss, hmem⟩ := (mem_computeDiff_actions pd S M₂ a).mp ha
  have hbe := diffIssue_beadsIssue_eq pd M₂ issue a hmem
  simp only [Bool.and_eq_true, beq_iff_eq, hbe]
  rintro ⟨rfl, -⟩
  rw [diffIssue_fst_of_not_needsUpdate pd M₂ issue em₂ h₂
    (needsUpdate_eq_false_of_eq_watermark pd issue em₂ hwm)] at hmem
  cases hmem

/-- Counterexample to **C10** as stated: a record with status `closed` and
no existing Link but with the adoptable reference `gh-1` is classified
`adopt`, not `create`. -/
theorem closed_create_counterexample :
    (computeDiff pdW [{ sampleIssue "bd-x" BeadsStatus.closed "AA" with
        external_ref := some "gh-1" }] mEmpty).actions.map (fun a => a.type)
      = [SyncActionType.adopt]
    ∧ (computeDiff pdW [{ sampleIssue "bd-x" BeadsStatus.closed "AA" with
        external_ref := some "gh-1" }] mEmpty).actions.filter
          (fun a => a.type == SyncActionType.create) = [] := by
  decide

/-- **C10** (amended: the record's `external_ref` must be absent or fail
the adoption pattern, else the record is adopted).  A closed record with no
Link and no adoptable reference is classified `create`; the executed create
issues no closing call and inserts a Link with watermark =
`r.updated_at`, adopted flag `false` and empty comment map; and a
subsequent diff against any map whose entry for `r` carries that watermark
emits no close action for `r` — the mirror entry stays open. -/
theorem closed_create_stays_open (pd : String → Option Int) (S : List BeadsIssue)
    (M M₂ : MappingFile) (r : BeadsIssue) (a : SyncAction) (resp : ClientResponses)
    (config : SyncConfig) (n : Nat) (gid : Int) (em₂ : IssueMapping)
    (hnd : (S.map (fun i => i.id)).Nodup) (hr : r ∈ S)
    (hl : getMapping M r.id = none)
    (_hstatus : r.status = BeadsStatus.closed)
    (hnoref : ∀ s, r.external_ref = some s → parseExternalRef s = none)
    (ha : a.type = SyncActionType.create) (hai : a.beadsIssue = r)
    (hdr : config.dryRun = false)
    (hcr : resp.createIssue = .ok (n, gid))
    (h₂ : getMapping M₂ r.id = some em₂)
    (hwm : em₂.beads_updated_at = r.updated_at) :
    (computeDiff pd S M).actions.filter (fun x => x.beadsIssue == r)
        = [{ type := SyncActionType.create, beadsIssue := r, githubIssueNumber := none,
             reason := "New beads issue" }]
    ∧ (executeAction a M resp config).error = none
    ∧ (executeAction a M resp config).calls.filter isCloseCall = []
    ∧ getMapping (executeAction a M resp config).mapping r.id
        = some { github_issue_number := n, github_issue_id := gid, last_sync_at := resp.now,
                 beads_updated_at := r.updated_at, adopted_from_external_ref := false,
                 comments := [] }
    ∧ (computeDiff pd S M₂).actions.filter
        (fun x => x.beadsIssue == r && x.type == SyncActionType.close) = [] := by
  obtain ⟨hmap, hener, hcalls⟩ := executeAction_create_ok a M resp config n gid ha hdr hcr
  refine ⟨?_, hener, hcalls, ?_, ?_⟩
  · rw [computeDiff_actions_filter pd S M r hnd hr, diffIssue_create_eq pd M r hl hnoref]
  · rw [hmap, hai]
    exact getMapping_setMapping_self M r.id _
  · exact computeDiff_no_close_of_watermark pd S M₂ r em₂ h₂ hwm

/-- A concrete closed record without external reference. -/
def rC10 : BeadsIssue := sampleIssue "bd-10" BeadsStatus.closed "AA"

/-- The create action the diff emits for `rC10`. -/
def aC10 : SyncAction :=
  { type := SyncActionType.create
  , beadsIssue := rC10
  , githubIssueNumber := none
  , reason := "New beads issue" }

/-- The Link inserted by `aC10`'s successful create. -/
def lnkC10 : IssueMapping :=
  { github_issue_number := 11, github_issue_id := 110, last_sync_at := "N",
    beads_updated_at := "AA", adopted_from_external_ref := false, comments := [] }

/-- The map after `aC10`'s create succeeded with issue number 11. -/
def mC10 : MappingFile :=
  { version := 1
  , mappings := [("bd-10", lnkC10)]
  , sync_metadata := { last_full_sync := "m" } }

/-- Witness for the amended C10 at a concrete closed record. -/
theorem closed_create_stays_open_witness :
    (computeDiff pdW [rC10] mEmpty).actions.filter (fun x => x.beadsIssue == rC10)
        = [{ type := SyncActionType.create, beadsIssue := rC10, githubIssueNumber := none,
             reason := "New beads issue" }]
    ∧ (executeAction aC10 mEmpty respOk configW).error = none
    ∧ (executeAction aC10 mEmpty respOk configW).calls.filter isCloseCall = []
    ∧ getMapping (executeAction aC10 mEmpty respOk configW).mapping rC10.id
        = some { github_issue_number := 11, github_issue_id := 110, last_sync_at := respOk.now,
                 beads_updated_at := rC10.updated_at, adopted_from_external_ref := false,
                 comments := [] }
    ∧ (computeDiff pdW [rC10] mC10).actions.filter
        (fun x => x.beadsIssue == rC10 && x.type == SyncActionType.close) = [] :=
  by
  refine closed_create_stays_open pdW [rC10] mEmpty mC10 rC10 aC10 respOk configW 11 110
    lnkC10 ?_ ?_ ?_ ?_ ?_ ?_ ?_ ?_ rfl ?_ ?_ <;> decide

/-! ## Claim theorems: close is update-then-close (C6) -/

/-- **C6.** A non-dry-run `close` first calls `updateIssue` (pushing the
rebuilt body and labels) and then `closeIssue` with the generated closing
comment; the Link's watermark advances to the record's `updated_at` only
when both calls succeed, and the mapping is unchanged when either call
fails; the closing comment contains the record's `close_reason` when
present. -/
theorem close_update_then_close (a : SyncAction) (r : BeadsIssue) (n : Nat)
    (em : IssueMapping) (M : MappingFile) (resp : ClientResponses) (config : SyncConfig)
    (ha : a.type = SyncActionType.close) (hai : a.beadsIssue = r)
    (hn : a.githubIssueNumber = some n) (hdr : config.dryRun = false)
    (hl : getMapping M r.id = some em) :
    (resp.updateIssue = .ok () → resp.closeIssue = .ok () →
      (executeAction a M resp config).calls
          = (match r.assignee with
             | some x => [MirrorCall.filterValidAssignees [x]]
             | none => [])
            ++ [MirrorCall.updateIssue n r.title (generateIssueBody r M)
                  (getLabelsForIssue r { addSyncMarker := config.addSyncMarker,
                                         labelPref := some config.labelPref }) none,
                MirrorCall.closeIssue n (some (generateClosingComment r))]
      ∧ (executeAction a M resp config).error = none
      ∧ getMapping (executeAction a M resp config).mapping r.id
          = some { em with beads_updated_at := r.updated_at, last_sync_at := resp.now })
    ∧ (∀ msg, resp.updateIssue = .error msg →
        (executeAction a M resp config).mapping = M
        ∧ (executeAction a M resp config).error
            = some { beadsIssueId := r.id, action := SyncActionType.close, message := msg }
        ∧ (executeAction a M resp config).calls.filter isCloseCall = [])
    ∧ (∀ msg, resp.updateIssue = .ok () → resp.closeIssue = .error msg →
        (executeAction a M resp config).mapping = M
        ∧ (executeAction a M resp config).error
            = some { beadsIssueId := r.id, action := SyncActionType.close, message := msg })
    ∧ (∀ reason, r.close_reason = some reason →
        ∃ s₁ s₂, generateClosingComment r = s₁ ++ reason ++ s₂) := by
  refine And.intro ?_ (And.intro ?_ (And.intro ?_ ?_))
  · intro hup hcl
    refine ⟨?_, ?_, ?_⟩
    · unfold executeAction
      rw [ha, hai, hn, hdr, hup, hcl]
      cases hass : r.assignee <;> simp [hass]
    · unfold executeAction
      rw [ha, hai, hn, hdr, hup, hcl]
      cases hass : r.assignee <;> simp [hass]
    · unfold executeAction
      rw [ha, hai, hn, hdr, hup, hcl]
      cases hass : r.assignee <;>
        simp only [hass] <;>
        (show getMapping (setWatermark M r.id r.updated_at resp.now) r.id = _) <;>
        (unfold setWatermark; rw [hl]; exact getMapping_setMapping_self M r.id _)
  · intro msg hup
    unfold executeAction
    rw [ha, hai, hn, hdr, hup]
    cases hass : r.assignee <;> simp [hass, isCloseCall]
  · intro msg hup hcl
    unfold executeAction
    rw [ha, hai, hn, hdr, hup, hcl]
    cases hass : r.assignee <;> simp [hass]
  · intro reason hcr
    refine ⟨"This issue was closed in beads.\n\n**Reason:** ",
      "\n\n---\n*Synced from beads issue `" ++ r.id ++ "`*", ?_⟩
    unfold generateClosingComment
    rw [hcr]
    dsimp only
    have hlit : ("This issue was closed in beads." ++ "\n\n**Reason:** " : String)
        = "This issue was closed in beads.\n\n**Reason:** " := by decide
    rw [← String.append_assoc "This issue was closed in beads." "\n\n**Reason:** " reason, hlit]
    simp [String.append_assoc]

/-- A concrete closed record with a close reason and a stale Link. -/
def rC6 : BeadsIssue :=
  { sampleIssue "bd-6" BeadsStatus.closed "BBBB" with close_reason := some "done" }

/-- The stale Link for `rC6`. -/
def lnkC6 : IssueMapping :=
  { github_issue_number := 5, github_issue_id := 50, last_sync_at := "s",
    beads_updated_at := "AAA", adopted_from_external_ref := false, comments := [] }

/-- The map linking `rC6`. -/
def mC6 : MappingFile :=
  { version := 1, mappings := [("bd-6", lnkC6)], sync_metadata := { last_full_sync := "m" } }

/-- The close action for `rC6`. -/
def aC6 : SyncAction :=
  { type := SyncActionType.close
  , beadsIssue := rC6
  , githubIssueNumber := some 5
  , reason := "Beads issue closed" }

/-- Responses whose update call throws. -/
def respUpdFail : ClientResponses := { respOk with updateIssue := .error "ufail" }

/-- Responses whose close call throws. -/
def respCloseFail : ClientResponses := { respOk with closeIssue := .error "cfail" }

/-- Witness for C6: at `rC6`, the success path is update-then-close with
the watermark advanced, either failure path leaves the map untouched, and
the closing comment contains the reason. -/
theorem close_update_then_close_witness :
    ((executeAction aC6 mC6 respOk configW).calls
        = [MirrorCall.updateIssue 5 rC6.title (generateIssueBody rC6 mC6)
             (getLabelsForIssue rC6 { addSyncMarker := configW.addSyncMarker,
                                      labelPref := some configW.labelPref }) none,
           MirrorCall.closeIssue 5 (some (generateClosingComment rC6))]
      ∧ (executeAction aC6 mC6 respOk configW).error = none
      ∧ getMapping (executeAction aC6 mC6 respOk configW).mapping rC6.id
          = some { lnkC6 with beads_updated_at := rC6.updated_at, last_sync_at := respOk.now })
    ∧ ((executeAction aC6 mC6 respUpdFail configW).mapping = mC6
      ∧ (executeAction aC6 mC6 respUpdFail configW).error
          = some { beadsIssueId := rC6.id, action := SyncActionType.close, message := "ufail" }
      ∧ (executeAction aC6 mC6 respUpdFail configW).calls.filter isCloseCall = [])
    ∧ ((executeAction aC6 mC6 respCloseFail configW).mapping = mC6
      ∧ (executeAction aC6 mC6 respCloseFail configW).error
          = some { beadsIssueId := rC6.id, action := SyncActionType.close, message := "cfail" })
    ∧ (∃ s₁ s₂, generateClosingComment rC6 = s₁ ++ "done" ++ s₂) := by
  refine ⟨?_, ?_, ?_, ?_⟩
  · exact (close_update_then_close aC6 rC6 5 lnkC6 mC6 respOk configW rfl rfl rfl rfl rfl).1
      rfl rfl
  · exact (close_update_then_close aC6 rC6 5 lnkC6 mC6 respUpdFail configW rfl rfl rfl rfl
      rfl).2.1 "ufail" rfl
  · exact (close_update_then_close aC6 rC6 5 lnkC6 mC6 respCloseFail configW rfl rfl rfl rfl
      rfl).2.2.1 "cfail" rfl rfl
  · exact (close_update_then_close aC6 rC6 5 lnkC6 mC6 respOk configW rfl rfl rfl rfl
      rfl).2.2.2 "done" rfl

/-! ## Claim theorems: deserialization policy (C8) -/

/-- **C8.** Map deserialization policy: an empty or whitespace-only input
yields a fresh empty map — version 1, empty `mappings`, metadata stamped
with the current wall clock `now` — while a malformed (unparseable)
non-empty input propagates the parse error (`none`, the thrown
`SyntaxError`) instead of silently falling back to an empty map.  The
model's `JSON.parse` covers the JSON fragment the engine writes (integer
numbers); within it, "malformed" is exactly `jsonParse _ = none`. -/
theorem deserialize_mapping_policy (now c₀ c₁ : String)
    (h₀ : jsTrim c₀ = "") (h₁ : ¬ jsTrim c₁ = "") (hmal : jsonParse c₁ = none) :
    deserializeMapping now c₀ = some (mappingFileToJson (createEmptyMapping now))
    ∧ createEmptyMapping now
        = { version := 1, mappings := [], sync_metadata := { last_full_sync := now } }
    ∧ deserializeMapping now c₁ = none := by
  refine ⟨?_, rfl, ?_⟩
  · unfold deserializeMapping
    rw [h₀]
    simp
  · unfold deserializeMapping
    rw [if_neg h₁, hmal]

/-- Witness for C8: whitespace-only input gives the fresh empty map, the
non-JSON input `"not json"` is a fatal error. -/
theorem deserialize_mapping_policy_witness :
    deserializeMapping "2025-01-01T00:00:00Z" "  \n"
        = some (mappingFileToJson (createEmptyMapping "2025-01-01T00:00:00Z"))
    ∧ createEmptyMapping "2025-01-01T00:00:00Z"
        = { version := 1, mappings := [],
            sync_metadata := { last_full_sync := "2025-01-01T00:00:00Z" } }
    ∧ deserializeMapping "2025-01-01T00:00:00Z" "not json" = none :=
  deserialize_mapping_policy "2025-01-01T00:00:00Z" "  \n" "not json"
    (by decide) (by decide) rfl

/-! ## Round-trip groundwork: decimal digits -/

/-- `digitChar` of a decimal digit reads back as that digit. -/
theorem digitChar_toNat (d : Nat) (h : d < 10) : (digitChar d).toNat = 48 + d := by
  have hv : Nat.isValidChar (48 + d) := by
    left
    omega
  unfold digitChar
  rw [Char.ofNat, dif_pos hv]
  rfl

/-- `digitChar` of a decimal digit is a digit character. -/
theorem digitChar_isDigit (d : Nat) (h : d < 10) : (digitChar d).isDigit = true := by
  interval_cases d <;> decide

/-- The accumulator of `digitCharsTo` is a plain suffix. -/
theorem digitCharsTo_append (n : Nat) : ∀ acc, digitCharsTo n acc = digitCharsTo n [] ++ acc := by
  induction n using Nat.strong_induction_on with
  | _ n ih =>
    intro acc
    by_cases h : n < 10
    · conv_lhs => rw [digitCharsTo]
      conv_rhs => rw [digitCharsTo]
      rw [if_pos h, if_pos h]
      rfl
    · have hlt : n / 10 < n := Nat.div_lt_self (by omega) (by omega)
      conv_lhs => rw [digitCharsTo]
      conv_rhs => rw [digitCharsTo]
      rw [if_neg h, if_neg h, ih (n / 10) hlt (digitChar (n % 10) :: acc),
        ih (n / 10) hlt [digitChar (n % 10)], List.append_assoc]
      rfl

/-- Peeling the least significant digit. -/
theorem digitChars_decomp (n : Nat) (h : ¬ n < 10) :
    digitChars n = (digitChars (n / 10)) ++ [digitChar (n % 10)] := by
  unfold digitChars
  conv_lhs => rw [digitCharsTo]
  rw [if_neg h, digitCharsTo_append]

/-- The single-digit case of `digitChars`. -/
theorem digitChars_single (n : Nat) (h : n < 10) : digitChars n = [digitChar n] := by
  unfold digitChars
  rw [digitCharsTo, if_pos h]

/-- Every character written for a number is a digit. -/
theorem digitChars_all_isDigit (n : Nat) : ∀ c ∈ digitChars n, c.isDigit = true := by
  induction n using Nat.strong_induction_on with
  | _ n ih =>
    by_cases h : n < 10
    · intro c hc
      rw [digitChars_single n h, List.mem_singleton] at hc
      subst hc
      exact digitChar_isDigit n h
    · intro c hc
      rw [digitChars_decomp n h, List.mem_append] at hc
      rcases hc with hc | hc
      · exact ih (n / 10) (Nat.div_lt_self (by omega) (by omega)) c hc
      · rw [List.mem_singleton] at hc
        subst hc
        exact digitChar_isDigit (n % 10) (Nat.mod_lt n (by omega))

/-- The digit string is never empty. -/
theorem digitChars_ne_nil (n : Nat) : digitChars n ≠ [] := by
  rcases Nat.lt_or_ge n 10 with h | h
  · rw [digitChars_single n h]
    simp
  · rw [digitChars_decomp n (by omega)]
    simp

/-- Maximal-munch digit parsing consumes exactly the digit string,
accumulating positionally. -/
theorem parseDigits_digitChars (n : Nat) : ∀ acc rest,
    parseDigits (digitChars n ++ rest) acc
      = parseDigits rest (acc * 10 ^ (digitChars n).length + n) := by
  induction n using Nat.strong_induction_on with
  | _ n ih =>
    intro acc rest
    by_cases h : n < 10
    · rw [digitChars_single n h]
      show parseDigits (digitChar n :: rest) acc = _
      rw [parseDigits, if_pos (digitChar_isDigit n h), digitChar_toNat n h]
      congr 1
      simp
      omega
    · rw [digitChars_decomp n h, List.append_assoc]
      have hlt : n / 10 < n := Nat.div_lt_self (by omega) (by omega)
      rw [ih (n / 10) hlt]
      show parseDigits (digitChar (n % 10) :: rest) _ = _
      have hm : n % 10 < 10 := Nat.mod_lt n (by omega)
      rw [parseDigits, if_pos (digitChar_isDigit _ hm), digitChar_toNat _ hm]
      congr 1
      have h1 : 48 + n % 10 - 48 = n % 10 := by omega
      rw [h1, List.length_append, List.length_singleton, pow_succ]
      have h2 := Nat.div_add_mod n 10
      calc 10 * (acc * 10 ^ (digitChars (n / 10)).length + n / 10) + n % 10
          = acc * (10 ^ (digitChars (n / 10)).length * 10) + (10 * (n / 10) + n % 10) := by
            ring
        _ = acc * (10 ^ (digitChars (n / 10)).length * 10) + n := by rw [h2]

/-- Parsing stops at a non-digit. -/
theorem parseDigits_stop (rest : List Char) (acc : Nat)
    (hrest : ∀ c, rest.head? = some c → c.isDigit = false) :
    parseDigits rest acc = (acc, rest) := by
  cases rest with
  | nil => rfl
  | cons c t =>
    rw [parseDigits, if_neg]
    simp [hrest c rfl]

/-- Nonzero numbers are written without a leading zero. -/
theorem digitChars_head_ne_zero (n : Nat) (hn : n ≠ 0) :
    ∀ c t, digitChars n = c :: t → c ≠ '0' := by
  induction n using Nat.strong_induction_on with
  | _ n ih =>
    intro c t hct
    by_cases h : n < 10
    · rw [digitChars_single n h] at hct
      cases hct
      intro hc
      have hv := digitChar_toNat n h
      rw [hc] at hv
      have h0 : ('0' : Char).toNat = 48 := by decide
      omega
    · rw [digitChars_decomp n h] at hct
      have hne := digitChars_ne_nil (n / 10)
      cases hd : digitChars (n / 10) with
      | nil => exact absurd hd hne
      | cons c' t' =>
        rw [hd] at hct
        have hc' : c' = c := by
          injection hct
        subst hc'
        exact ih (n / 10) (Nat.div_lt_self (by omega) (by omega)) (by omega) c' t' hd

/-! ## Round-trip groundwork: number literals -/

/-- A printed natural number parses back, stopping at the first
non-digit. -/
theorem parseNatNum_digitChars (n : Nat) (rest : List Char)
    (hrest : ∀ c, rest.head? = some c → c.isDigit = false) :
    parseNatNum (digitChars n ++ rest) = some (n, rest) := by
  by_cases h0 : n = 0
  · subst h0
    rw [show digitChars 0 = ['0'] from digitChars_single 0 (by omega)]
    show parseNatNum ('0' :: rest) = some (0, rest)
    cases rest with
    | nil => rfl
    | cons c t =>
      rw [parseNatNum]
      simp [hrest c rfl]
  · obtain ⟨c, t, hct⟩ : ∃ c t, digitChars n = c :: t := by
      cases hd : digitChars n with
      | nil => exact absurd hd (digitChars_ne_nil n)
      | cons c t => exact ⟨c, t, rfl⟩
    have hc0 : c ≠ '0' := digitChars_head_ne_zero n h0 c t hct
    have hcd : c.isDigit = true := digitChars_all_isDigit n c (by rw [hct]; simp)
    rw [hct]
    show parseNatNum (c :: (t ++ rest)) = some (n, rest)
    rw [parseNatNum.eq_def]
    split
    · rename_i heq
      cases heq
    · rename_i r heq
      injection heq with h1 h2
      exact absurd h1 hc0
    · rename_i c' r heq
      injection heq with h1 h2
      subst h1
      subst h2
      rw [if_pos hcd]
      have hsplit : c :: (t ++ rest) = digitChars n ++ rest := by
        rw [hct]
        rfl
      rw [hsplit, parseDigits_digitChars n 0 rest,
        show (0 : Nat) * 10 ^ (digitChars n).length + n = n by ring,
        parseDigits_stop rest n hrest]

/-- The first character of a printed integer: a minus sign or a digit. -/
theorem intChars_head (n : Int) :
    ∃ c t, intChars n = c :: t ∧ (c = '-' ∨ c.isDigit = true) := by
  unfold intChars
  by_cases h : n < 0
  · rw [if_pos h]
    exact ⟨'-', digitChars n.natAbs, rfl, Or.inl rfl⟩
  · rw [if_neg h]
    cases hd : digitChars n.toNat with
    | nil => exact absurd hd (digitChars_ne_nil _)
    | cons c t =>
      refine ⟨c, t, rfl, Or.inr ?_⟩
      exact digitChars_all_isDigit _ c (by rw [hd]; simp)

/-- A printed integer parses back, stopping at the first non-digit. -/
theorem parseNum_intChars (n : Int) (rest : List Char)
    (hrest : ∀ c, rest.head? = some c → c.isDigit = false) :
    parseNum (intChars n ++ rest) = some (Json.num n, rest) := by
  unfold intChars
  by_cases h : n < 0
  · rw [if_pos h]
    show parseNum ('-' :: (digitChars n.natAbs ++ rest)) = _
    rw [parseNum.eq_def]
    split
    · rename_i r heq
      injection heq with h1 h2
      subst h2
      have hv : -((n.natAbs : Int)) = n := by omega
      rw [parseNatNum_digitChars n.natAbs rest hrest, Option.map_some', hv]
    · rename_i x hne
      exact ((hne (digitChars n.natAbs ++ rest)) rfl).elim
  · rw [if_neg h]
    obtain ⟨c, t, hct⟩ : ∃ c t, digitChars n.toNat = c :: t := by
      cases hd : digitChars n.toNat with
      | nil => exact absurd hd (digitChars_ne_nil _)
      | cons c t => exact ⟨c, t, rfl⟩
    have hcd : c.isDigit = true := digitChars_all_isDigit _ c (by rw [hct]; simp)
    have hcm : c ≠ '-' := by
      intro hcon
      rw [hcon] at hcd
      cases hcd
    rw [hct]
    show parseNum (c :: (t ++ rest)) = _
    rw [parseNum.eq_def]
    split
    · rename_i r heq
      injection heq with h1 h2
      exact absurd h1 hcm
    · rename_i hne
      have hsplit : c :: (t ++ rest) = digitChars n.toNat ++ rest := by
        rw [hct]
        rfl
      have hv : ((n.toNat : Int)) = n := by omega
      rw [hsplit, parseNatNum_digitChars n.toNat rest hrest, Option.map_some', hv]

/-! ## Round-trip groundwork: string literals -/

/-- Hex digits decode to their value. -/
theorem hexVal_hexDigitChar (d : Nat) (h : d < 16) : hexVal (hexDigitChar d) = some d := by
  interval_cases d <;> decide

/-- `Char.ofNat` of a character's code point gives the character back. -/
theorem char_ofNat_toNat (c : Char) : Char.ofNat c.toNat = c := Char.ofNat_toNat c

/-- One-step equations for `parseStrBody` (definitional). -/
theorem parseStrBody_quote (l : List Char) : parseStrBody ('"' :: l) = some ([], l) := rfl

/-- Escaped quote step. -/
theorem parseStrBody_esc_quote (l : List Char) :
    parseStrBody ('\\' :: '"' :: l) = (parseStrBody l).map (fun r => ('"' :: r.1, r.2)) := rfl

/-- Escaped backslash step. -/
theorem parseStrBody_esc_bs (l : List Char) :
    parseStrBody ('\\' :: '\\' :: l) = (parseStrBody l).map (fun r => ('\\' :: r.1, r.2)) := rfl

/-- Escaped backspace step. -/
theorem parseStrBody_esc_b (l : List Char) :
    parseStrBody ('\\' :: 'b' :: l) = (parseStrBody l).map (fun r => ('\x08' :: r.1, r.2)) := rfl

/-- Escaped tab step. -/
theorem parseStrBody_esc_t (l : List Char) :
    parseStrBody ('\\' :: 't' :: l) = (parseStrBody l).map (fun r => ('\x09' :: r.1, r.2)) := rfl

/-- Escaped newline step. -/
theorem parseStrBody_esc_n (l : List Char) :
    parseStrBody ('\\' :: 'n' :: l) = (parseStrBody l).map (fun r => ('\x0a' :: r.1, r.2)) := rfl

/-- Escaped form-feed step. -/
theorem parseStrBody_esc_f (l : List Char) :
    parseStrBody ('\\' :: 'f' :: l) = (parseStrBody l).map (fun r => ('\x0c' :: r.1, r.2)) := rfl

/-- Escaped carriage-return step. -/
theorem parseStrBody_esc_r (l : List Char) :
    parseStrBody ('\\' :: 'r' :: l) = (parseStrBody l).map (fun r => ('\x0d' :: r.1, r.2)) := rfl

/-- Unicode escape step. -/
theorem parseStrBody_esc_u (a b c d : Char) (l : List Char) :
    parseStrBody ('\\' :: 'u' :: a :: b :: c :: d :: l)
      = match hexVal a, hexVal b, hexVal c, hexVal d with
        | some va, some vb, some vc, some vd =>
          (parseStrBody l).map
            (fun r => (Char.ofNat (((va * 16 + vb) * 16 + vc) * 16 + vd) :: r.1, r.2))
        | _, _, _, _ => none := rfl

set_option maxHeartbeats 2000000 in
/-- Ordinary-character step: anything that is not a quote, a backslash or
a control character is consumed verbatim. -/
theorem parseStrBody_other (c : Char) (l : List Char)
    (h1 : c ≠ '"') (h2 : c ≠ '\\') (h3 : ¬ c.toNat < 32) :
    parseStrBody (c :: l) = (parseStrBody l).map (fun r => (c :: r.1, r.2)) := by
  rw [parseStrBody.eq_def]
  split
  all_goals simp_all

/-- A fully escaped string body followed by the closing quote parses back
to the original characters. -/
theorem parseStrBody_escChars (s : List Char) (rest : List Char) :
    parseStrBody (escChars s ++ '"' :: rest) = some (s, rest) := by
  induction s with
  | nil =>
    show parseStrBody ('"' :: rest) = some ([], rest)
    rfl
  | cons c t ih =>
    show parseStrBody ((escChar c ++ escChars t) ++ '"' :: rest) = some (c :: t, rest)
    rw [List.append_assoc]
    unfold escChar
    by_cases h1 : c = '"'
    · subst h1
      rw [if_pos rfl]
      show parseStrBody ('\\' :: '"' :: (escChars t ++ '"' :: rest)) = _
      rw [parseStrBody_esc_quote, ih]
      rfl
    · rw [if_neg h1]
      by_cases h2 : c = '\\'
      · subst h2
        rw [if_pos rfl]
        show parseStrBody ('\\' :: '\\' :: (escChars t ++ '"' :: rest)) = _
        rw [parseStrBody_esc_bs, ih]
        rfl
      · rw [if_neg h2]
        by_cases h3 : c = '\x08'
        · subst h3
          rw [if_pos rfl]
          show parseStrBody ('\\' :: 'b' :: (escChars t ++ '"' :: rest)) = _
          rw [parseStrBody_esc_b, ih]
          rfl
        · rw [if_neg h3]
          by_cases h4 : c = '\x09'
          · subst h4
            rw [if_pos rfl]
            show parseStrBody ('\\' :: 't' :: (escChars t ++ '"' :: rest)) = _
            rw [parseStrBody_esc_t, ih]
            rfl
          · rw [if_neg h4]
            by_cases h5 : c = '\x0a'
            · subst h5
              rw [if_pos rfl]
              show parseStrBody ('\\' :: 'n' :: (escChars t ++ '"' :: rest)) = _
              rw [parseStrBody_esc_n, ih]
              rfl
            · rw [if_neg h5]
              by_cases h6 : c = '\x0c'
              · subst h6
                rw [if_pos rfl]
                show parseStrBody ('\\' :: 'f' :: (escChars t ++ '"' :: rest)) = _
                rw [parseStrBody_esc_f, ih]
                rfl
              · rw [if_neg h6]
                by_cases h7 : c = '\x0d'
                · subst h7
                  rw [if_pos rfl]
                  show parseStrBody ('\\' :: 'r' :: (escChars t ++ '"' :: rest)) = _
                  rw [parseStrBody_esc_r, ih]
                  rfl
                · rw [if_neg h7]
                  by_cases h8 : c.toNat < 32
                  · rw [if_pos h8]
                    show parseStrBody
                        ('\\' :: 'u' :: '0' :: '0' :: hexDigitChar (c.toNat / 16) ::
                          hexDigitChar (c.toNat % 16) :: (escChars t ++ '"' :: rest)) = _
                    rw [parseStrBody_esc_u]
                    have hh : hexVal (hexDigitChar (c.toNat / 16)) = some (c.toNat / 16) :=
                      hexVal_hexDigitChar _ (by omega)
                    have hl : hexVal (hexDigitChar (c.toNat % 16)) = some (c.toNat % 16) :=
                      hexVal_hexDigitChar _ (by omega)
                    rw [show hexVal '0' = some 0 from rfl, hh, hl, ih]
                    dsimp only
                    have harith : ((0 * 16 + 0) * 16 + c.toNat / 16) * 16 + c.toNat % 16
                        = c.toNat := by omega
                    rw [harith, char_ofNat_toNat]
                    rfl
                  · rw [if_neg h8]
                    show parseStrBody (c :: (escChars t ++ '"' :: rest)) = _
                    rw [parseStrBody_other c _ h1 h2 h8, ih]
                    rfl

/-! ## Round-trip groundwork: whitespace and token boundaries -/

/-- `skipWs` keeps a non-whitespace head. -/
theorem skipWs_cons_not_ws (c : Char) (l : List Char) (h : isWsChar c = false) :
    skipWs (c :: l) = c :: l := by
  rw [skipWs, h]
  rfl

/-- `skipWs` swallows a whitespace prefix. -/
theorem skipWs_ws_append (pre : List Char) (l : List Char)
    (h : ∀ c ∈ pre, isWsChar c = true) : skipWs (pre ++ l) = skipWs l := by
  induction pre with
  | nil => rfl
  | cons c t ih =>
    show skipWs (c :: (t ++ l)) = skipWs l
    rw [skipWs, h c (by simp)]
    exact ih (fun c' hc' => h c' (by simp [hc']))

/-- `skipWs` is idempotent. -/
theorem skipWs_idem (l : List Char) : skipWs (skipWs l) = skipWs l := by
  induction l with
  | nil => rfl
  | cons c t ih =>
    by_cases h : isWsChar c = true
    · rw [skipWs, h]
      simpa using ih
    · rw [skipWs_cons_not_ws c t (by simpa using h), skipWs_cons_not_ws c t (by simpa using h)]

/-- Indentation is whitespace. -/
theorem indentChars_ws (d : Nat) : ∀ c ∈ indentChars d, isWsChar c = true := by
  intro c hc
  rw [indentChars, List.mem_replicate] at hc
  rw [hc.2]
  rfl

/-- Whitespace characters are not digits. -/
theorem isDigit_eq_false_of_isWsChar (c : Char) (h : isWsChar c = true) :
    c.isDigit = false := by
  simp only [isWsChar, Bool.or_eq_true, beq_iff_eq, decide_eq_true_eq] at h
  repeat' (rcases h with h | h)
  all_goals rfl

/-- Digits are not whitespace. -/
theorem isWsChar_eq_false_of_isDigit (c : Char) (h : c.isDigit = true) :
    isWsChar c = false := by
  cases hw : isWsChar c with
  | false => rfl
  | true => rw [isDigit_eq_false_of_isWsChar c hw] at h; cases h

/-- The boundary condition protecting number parsing: the remaining input
does not begin with a digit. -/
def Tok (rest : List Char) : Prop := ∀ c, rest.head? = some c → c.isDigit = false

/-- The empty remainder is a boundary. -/
theorem tok_nil : Tok [] := fun c h => by cases h

/-- A non-digit head is a boundary. -/
theorem tok_cons (c : Char) (rest : List Char) (h : c.isDigit = false) :
    Tok (c :: rest) := by
  intro c' hc'
  cases hc'
  exact h

/-- A whitespace prefix before a boundary is a boundary. -/
theorem tok_ws_append (wsl rest : List Char) (hws : ∀ c ∈ wsl, isWsChar c = true)
    (h : Tok rest) : Tok (wsl ++ rest) := by
  cases wsl with
  | nil => exact h
  | cons c t =>
    intro c' hc'
    cases hc'
    exact isDigit_eq_false_of_isWsChar c (hws c (by simp))

/-! ## Round-trip groundwork: printed heads and fuel -/

/-- The first character of any printed value: never whitespace, never a
closing token. -/
theorem printJson_head (j : Json) (d : Nat) :
    ∃ c t, printJson j d = c :: t ∧ isWsChar c = false
      ∧ c ≠ '\x7d' ∧ c ≠ ']' ∧ c ≠ ',' := by
  cases j with
  | null => refine ⟨'n', _, rfl, ?_, ?_, ?_, ?_⟩ <;> decide
  | bool b => cases b with
    | true => refine ⟨'t', _, rfl, ?_, ?_, ?_, ?_⟩ <;> decide
    | false => refine ⟨'f', _, rfl, ?_, ?_, ?_, ?_⟩ <;> decide
  | num n =>
    obtain ⟨c, t, hct, hc⟩ := intChars_head n
    refine ⟨c, t, by rw [printJson, hct], ?_, ?_, ?_, ?_⟩
    · rcases hc with rfl | hc
      · rfl
      · exact isWsChar_eq_false_of_isDigit c hc
    · rcases hc with rfl | hc
      · decide
      · intro hcon
        rw [hcon] at hc
        cases hc
    · rcases hc with rfl | hc
      · decide
      · intro hcon
        rw [hcon] at hc
        cases hc
    · rcases hc with rfl | hc
      · decide
      · intro hcon
        rw [hcon] at hc
        cases hc
  | str s => refine ⟨'"', _, rfl, ?_, ?_, ?_, ?_⟩ <;> decide
  | arr es => cases es with
    | nil => refine ⟨'[', _, rfl, ?_, ?_, ?_, ?_⟩ <;> decide
    | cons e es' => refine ⟨'[', _, rfl, ?_, ?_, ?_, ?_⟩ <;> decide
  | obj ms => cases ms with
    | nil => refine ⟨'\x7b', _, rfl, ?_, ?_, ?_, ?_⟩ <;> decide
    | cons m ms' => refine ⟨'\x7b', _, rfl, ?_, ?_, ?_, ?_⟩ <;> decide

/-- A non-empty printed member list, whitespace-stripped, starts at the
first key's opening quote. -/
theorem printMembers_strip (k : String) (v : Json) (ms : List (String × Json)) (d : Nat)
    (suffix : List Char) :
    ∃ tail, skipWs (printMembers ((k, v) :: ms) d ++ suffix) = '"' :: tail := by
  cases ms with
  | nil =>
    refine ⟨escChars k.data ++ ['"'] ++ (':' :: ' ' :: printJson v d) ++ suffix, ?_⟩
    show skipWs (('\n' :: (indentChars d ++ quoteChars k ++ ':' :: ' ' :: printJson v d))
        ++ suffix) = _
    rw [show ('\n' :: (indentChars d ++ quoteChars k ++ ':' :: ' ' :: printJson v d)) ++ suffix
        = ('\n' :: indentChars d) ++ (quoteChars k ++ ':' :: ' ' :: printJson v d ++ suffix) by
      simp]
    rw [skipWs_ws_append ('\n' :: indentChars d) _
      (by
        intro c hc
        rcases List.mem_cons.mp hc with rfl | hc
        · rfl
        · exact indentChars_ws d c hc)]
    rw [show quoteChars k ++ ':' :: ' ' :: printJson v d ++ suffix
        = '"' :: (escChars k.data ++ ['"'] ++ (':' :: ' ' :: printJson v d) ++ suffix) by
      simp [quoteChars]]
    rw [skipWs_cons_not_ws _ _ (by decide)]
  | cons m' ms' =>
    refine ⟨escChars k.data ++ ['"'] ++ (':' :: ' ' :: printJson v d)
      ++ ',' :: printMembers (m' :: ms') d ++ suffix, ?_⟩
    show skipWs (('\n' :: (indentChars d ++ quoteChars k ++ ':' :: ' ' :: printJson v d
        ++ ',' :: printMembers (m' :: ms') d)) ++ suffix) = _
    rw [show ('\n' :: (indentChars d ++ quoteChars k ++ ':' :: ' ' :: printJson v d
          ++ ',' :: printMembers (m' :: ms') d)) ++ suffix
        = ('\n' :: indentChars d) ++ (quoteChars k ++ ':' :: ' ' :: printJson v d
          ++ ',' :: printMembers (m' :: ms') d ++ suffix) by simp]
    rw [skipWs_ws_append ('\n' :: indentChars d) _
      (by
        intro c hc
        rcases List.mem_cons.mp hc with rfl | hc
        · rfl
        · exact indentChars_ws d c hc)]
    rw [show quoteChars k ++ ':' :: ' ' :: printJson v d
          ++ ',' :: printMembers (m' :: ms') d ++ suffix
        = '"' :: (escChars k.data ++ ['"'] ++ (':' :: ' ' :: printJson v d)
          ++ ',' :: printMembers (m' :: ms') d ++ suffix) by simp [quoteChars]]
    rw [skipWs_cons_not_ws _ _ (by decide)]

mutual

/-- Sufficient parser fuel for one value. -/
def jsonFuel : Json → Nat
  | .null => 1
  | .arr es => 1 + elemsFuel es
  | .bool _ => 1
  | .num _ => 1
  | .obj ms => 1 + membersFuel ms
  | .str _ => 1

/-- Sufficient parser fuel for an object's members. -/
def membersFuel : List (String × Json) → Nat
  | [] => 0
  | (_, q) :: tl => 1 + jsonFuel q + membersFuel tl

/-- Sufficient parser fuel for an array's elements. -/
def elemsFuel : List Json → Nat
  | [] => 0
  | q :: tl => 1 + jsonFuel q + elemsFuel tl

end

/-- Rebuilding a string from its characters. -/
theorem string_mk_data (s : String) : String.mk s.data = s := rfl

/-- A printed value absorbs a leading `skipWs`. -/
theorem skipWs_print_append (j : Json) (d : Nat) (X : List Char) :
    skipWs (printJson j d ++ X) = printJson j d ++ X := by
  obtain ⟨c, t, hct, hws, -, -, -⟩ := printJson_head j d
  rw [hct, List.cons_append, skipWs_cons_not_ws c (t ++ X) hws]

/-- Normal form of a stripped singleton member list. -/
theorem printMembers_strip_single (k : String) (v : Json) (d : Nat) (suffix : List Char) :
    skipWs (printMembers [(k, v)] d ++ suffix)
      = '"' :: (escChars k.data ++ ('"' :: (':' :: ' ' :: (printJson v d ++ suffix)))) := by
  show skipWs (('\n' :: (indentChars d ++ quoteChars k ++ ':' :: ' ' :: printJson v d))
      ++ suffix) = _
  rw [show ('\n' :: (indentChars d ++ quoteChars k ++ ':' :: ' ' :: printJson v d)) ++ suffix
      = ('\n' :: indentChars d)
        ++ ('"' :: (escChars k.data ++ ('"' :: (':' :: ' ' :: (printJson v d ++ suffix))))) by
    simp [quoteChars]]
  rw [skipWs_ws_append ('\n' :: indentChars d) _
    (by
      intro c hc
      rcases List.mem_cons.mp hc with rfl | hc
      · rfl
      · exact indentChars_ws d c hc)]
  rw [skipWs_cons_not_ws _ _ (by decide)]

/-- Normal form of a stripped multi-member list. -/
theorem printMembers_strip_cons (k : String) (v : Json) (m : String × Json)
    (ms : List (String × Json)) (d : Nat) (suffix : List Char) :
    skipWs (printMembers ((k, v) :: m :: ms) d ++ suffix)
      = '"' :: (escChars k.data ++ ('"' :: (':' :: ' ' ::
          (printJson v d ++ (',' :: (printMembers (m :: ms) d ++ suffix)))))) := by
  show skipWs (('\n' :: (indentChars d ++ quoteChars k ++ ':' :: ' ' :: printJson v d
      ++ ',' :: printMembers (m :: ms) d)) ++ suffix) = _
  rw [show ('\n' :: (indentChars d ++ quoteChars k ++ ':' :: ' ' :: printJson v d
        ++ ',' :: printMembers (m :: ms) d)) ++ suffix
      = ('\n' :: indentChars d)
        ++ ('"' :: (escChars k.data ++ ('"' :: (':' :: ' ' ::
            (printJson v d ++ (',' :: (printMembers (m :: ms) d ++ suffix))))))) by
    simp [quoteChars]]
  rw [skipWs_ws_append ('\n' :: indentChars d) _
    (by
      intro c hc
      rcases List.mem_cons.mp hc with rfl | hc
      · rfl
      · exact indentChars_ws d c hc)]
  rw [skipWs_cons_not_ws _ _ (by decide)]

/-- Normal form of a stripped singleton element list. -/
theorem printElements_strip_single (e : Json) (d : Nat) (suffix : List Char) :
    skipWs (printElements [e] d ++ suffix) = printJson e d ++ suffix := by
  show skipWs (('\n' :: (indentChars d ++ printJson e d)) ++ suffix) = _
  rw [show ('\n' :: (indentChars d ++ printJson e d)) ++ suffix
      = ('\n' :: indentChars d) ++ (printJson e d ++ suffix) by simp]
  rw [skipWs_ws_append ('\n' :: indentChars d) _
    (by
      intro c hc
      rcases List.mem_cons.mp hc with rfl | hc
      · rfl
      · exact indentChars_ws d c hc)]
  exact skipWs_print_append e d suffix

/-- Normal form of a stripped multi-element list. -/
theorem printElements_strip_cons (e e₂ : Json) (es : List Json) (d : Nat)
    (suffix : List Char) :
    skipWs (printElements (e :: e₂ :: es) d ++ suffix)
      = printJson e d ++ (',' :: (printElements (e₂ :: es) d ++ suffix)) := by
  show skipWs (('\n' :: (indentChars d ++ printJson e d ++ ',' :: printElements (e₂ :: es) d))
      ++ suffix) = _
  rw [show ('\n' :: (indentChars d ++ printJson e d ++ ',' :: printElements (e₂ :: es) d))
        ++ suffix
      = ('\n' :: indentChars d)
        ++ (printJson e d ++ (',' :: (printElements (e₂ :: es) d ++ suffix))) by simp]
  rw [skipWs_ws_append ('\n' :: indentChars d) _
    (by
      intro c hc
      rcases List.mem_cons.mp hc with rfl | hc
      · rfl
      · exact indentChars_ws d c hc)]
  obtain ⟨c, t, hct, hws, -, -, -⟩ := printJson_head e d
  rw [hct, List.cons_append, skipWs_cons_not_ws c _ hws]

/-- Parser fuel is positive for any value. -/
theorem jsonFuel_pos (j : Json) : 1 ≤ jsonFuel j := by
  cases j <;> simp [jsonFuel]

/-- Parser fuel is positive for a non-empty member list. -/
theorem membersFuel_pos (ms : List (String × Json)) (h : ms ≠ []) : 1 ≤ membersFuel ms := by
  cases ms with
  | nil => exact absurd rfl h
  | cons m rest =>
    obtain ⟨k, v⟩ := m
    simp only [membersFuel]
    omega

/-- Parser fuel is positive for a non-empty element list. -/
theorem elemsFuel_pos (es : List Json) (h : es ≠ []) : 1 ≤ elemsFuel es := by
  cases es with
  | nil => exact absurd rfl h
  | cons e rest =>
    simp only [elemsFuel]
    omega

/-- The ten digit characters, enumerated. -/
theorem isDigit_cases (c : Char) (h : c.isDigit = true) :
    c = '0' ∨ c = '1' ∨ c = '2' ∨ c = '3' ∨ c = '4' ∨ c = '5' ∨ c = '6' ∨ c = '7'
      ∨ c = '8' ∨ c = '9' := by
  have hb : 48 ≤ c.toNat ∧ c.toNat ≤ 57 := by
    simp [Char.isDigit] at h
    exact ⟨h.1, h.2⟩
  have hc : c = Char.ofNat c.toNat := (char_ofNat_toNat c).symm
  have h10 : c.toNat = 48 ∨ c.toNat = 49 ∨ c.toNat = 50 ∨ c.toNat = 51 ∨ c.toNat = 52
      ∨ c.toNat = 53 ∨ c.toNat = 54 ∨ c.toNat = 55 ∨ c.toNat = 56 ∨ c.toNat = 57 := by
    omega
  rcases h10 with h' | h' | h' | h' | h' | h' | h' | h' | h' | h' <;> rw [hc, h'] <;> decide

/-- The closing-line prefix (`"\n" ++ indent`) is whitespace. -/
theorem closeWs (d : Nat) : ∀ c ∈ ('\n' :: indentChars d), isWsChar c = true := by
  intro c hc
  rcases List.mem_cons.mp hc with rfl | hc
  · rfl
  · exact indentChars_ws d c hc

/-- One-step equation for `parseValue` (definitional). -/
theorem parseValue_step (f : Nat) (s : List Char) :
    parseValue (f + 1) s
      = match skipWs s with
        | '\x7b' :: rest =>
          (match skipWs rest with
           | [] => parseMembers f [] []
           | c :: rest' =>
             if c = '\x7d' then some (.obj [], rest') else parseMembers f (c :: rest') [])
        | '[' :: rest =>
          (match skipWs rest with
           | [] => parseElements f [] []
           | c :: rest' =>
             if c = ']' then some (.arr [], rest') else parseElements f (c :: rest') [])
        | '"' :: rest => (parseStrBody rest).map (fun r => (.str (String.mk r.1), r.2))
        | 'n' :: 'u' :: 'l' :: 'l' :: rest => some (.null, rest)
        | 't' :: 'r' :: 'u' :: 'e' :: rest => some (.bool true, rest)
        | 'f' :: ('a' :: ('l' :: ('s' :: ('e' :: rest)))) => some (.bool false, rest)
        | s' => parseNum s' := rfl

/-- One-step equation for `parseMembers` at an opening quote. -/
theorem parseMembers_quote (f : Nat) (r : List Char) (acc : List (String × Json)) :
    parseMembers (f + 1) ('"' :: r) acc
      = match parseStrBody r with
        | none => none
        | some (key, r1) =>
          match skipWs r1 with
          | ':' :: r2 =>
            match parseValue f r2 with
            | none => none
            | some (v, r3) =>
              match skipWs r3 with
              | ',' :: r4 => parseMembers f (skipWs r4) (acc ++ [(String.mk key, v)])
              | '\x7d' :: r4 => some (.obj (acc ++ [(String.mk key, v)]), r4)
              | _ => none
          | _ => none := rfl

/-- One-step equation for `parseElements`. -/
theorem parseElements_step (f : Nat) (s : List Char) (acc : List Json) :
    parseElements (f + 1) s acc
      = match parseValue f s with
        | none => none
        | some (v, r1) =>
          match skipWs r1 with
          | ',' :: r2 => parseElements f r2 (acc ++ [v])
          | ']' :: r2 => some (.arr (acc ++ [v]), r2)
          | _ => none := rfl

/-- The master round trip: a printed value (resp. member list, element
list), followed by a digit-free remainder, parses back exactly, given
sufficient fuel. -/
theorem parsePrint_aux : ∀ fuel : Nat,
    (∀ j d s rest, skipWs s = printJson j d ++ rest → Tok rest → jsonFuel j ≤ fuel →
      parseValue fuel s = some (j, rest))
    ∧ (∀ ms acc d wsClose rest, ms ≠ [] → (∀ c ∈ wsClose, isWsChar c = true) → Tok rest →
        membersFuel ms ≤ fuel →
        parseMembers fuel (skipWs (printMembers ms d ++ (wsClose ++ '\x7d' :: rest))) acc
          = some (Json.obj (acc ++ ms), rest))
    ∧ (∀ es acc d wsClose rest s, es ≠ [] → (∀ c ∈ wsClose, isWsChar c = true) → Tok rest →
        elemsFuel es ≤ fuel →
        skipWs s = skipWs (printElements es d ++ (wsClose ++ ']' :: rest)) →
        parseElements fuel s acc = some (Json.arr (acc ++ es), rest)) := by
  intro fuel
  induction fuel with
  | zero =>
    refine ⟨?_, ?_, ?_⟩
    · intro j d s rest _ _ hf
      have h1 := jsonFuel_pos j
      exact absurd hf (by omega)
    · intro ms acc d wsClose rest hne _ _ hf
      have h1 := membersFuel_pos ms hne
      exact absurd hf (by omega)
    · intro es acc d wsClose rest s hne _ _ hf _
      have h1 := elemsFuel_pos es hne
      exact absurd hf (by omega)
  | succ f ih =>
    obtain ⟨ihV, ihM, ihE⟩ := ih
    refine ⟨?_, ?_, ?_⟩
    · -- values
      intro j d s rest hs htok hfuel
      rw [parseValue_step]
      cases j with
      | null =>
        have hs' : skipWs s = 'n' :: ('u' :: ('l' :: ('l' :: rest))) := hs
        rw [hs']
        rfl
      | bool b =>
        cases b with
        | true =>
          have hs' : skipWs s = 't' :: ('r' :: ('u' :: ('e' :: rest))) := hs
          rw [hs']
          rfl
        | false =>
          have hs' : skipWs s = 'f' :: ('a' :: ('l' :: ('s' :: ('e' :: rest)))) := hs
          rw [hs']
          rfl
      | num n =>
        have hs' : skipWs s = intChars n ++ rest := hs
        obtain ⟨c, t, hct, hcd⟩ := intChars_head n
        have hgoal : parseNum (c :: (t ++ rest)) = some (Json.num n, rest) := by
          have hx : c :: (t ++ rest) = intChars n ++ rest := by
            rw [hct]
            rfl
          rw [hx]
          exact parseNum_intChars n rest htok
        rw [hs', hct, List.cons_append]
        have hdisj : c = '-' ∨ (c = '0' ∨ c = '1' ∨ c = '2' ∨ c = '3' ∨ c = '4' ∨ c = '5'
            ∨ c = '6' ∨ c = '7' ∨ c = '8' ∨ c = '9') := by
          rcases hcd with rfl | hd
          · exact Or.inl rfl
          · exact Or.inr (isDigit_cases c hd)
        rcases hdisj with rfl | hd
        · exact hgoal
        · obtain h | h | h | h | h | h | h | h | h | h := hd <;> subst h <;> exact hgoal
      | str x =>
        have hs' : skipWs s = '"' :: (escChars x.data ++ ('"' :: rest)) := by
          rw [hs]
          show quoteChars x ++ rest = _
          simp [quoteChars]
        rw [hs']
        show (parseStrBody (escChars x.data ++ ('"' :: rest))).map
            (fun r => (Json.str (String.mk r.1), r.2)) = some (Json.str x, rest)
        rw [parseStrBody_escChars]
        rfl
      | arr es =>
        cases es with
        | nil =>
          have hs' : skipWs s = '[' :: (']' :: rest) := hs
          rw [hs']
          show (match skipWs (']' :: rest) with
                | [] => parseElements f [] []
                | c :: rest' =>
                  if c = ']' then some (Json.arr [], rest') else parseElements f (c :: rest') [])
              = some (Json.arr [], rest)
          rw [skipWs_cons_not_ws ']' rest (by decide)]
          simp
        | cons e es' =>
          have hs' : skipWs s = '[' :: (printElements (e :: es') (d + 1)
              ++ (('\n' :: indentChars d) ++ (']' :: rest))) := by
            rw [hs]
            show ('[' :: (printElements (e :: es') (d + 1) ++ '\n' :: (indentChars d ++ [']'])))
                ++ rest = _
            simp
          rw [hs']
          show (match skipWs (printElements (e :: es') (d + 1)
                  ++ (('\n' :: indentChars d) ++ (']' :: rest))) with
                | [] => parseElements f [] []
                | c :: rest' =>
                  if c = ']' then some (Json.arr [], rest') else parseElements f (c :: rest') [])
              = some (Json.arr (e :: es'), rest)
          obtain ⟨c0, t0, hct0, hw0, hne0a, hne0b, hne0c⟩ := printJson_head e (d + 1)
          have hstrip : ∃ tail, skipWs (printElements (e :: es') (d + 1)
              ++ (('\n' :: indentChars d) ++ (']' :: rest))) = c0 :: tail := by
            cases es' with
            | nil =>
              rw [printElements_strip_single, hct0, List.cons_append]
              exact ⟨_, rfl⟩
            | cons e2 es2 =>
              rw [printElements_strip_cons, hct0, List.cons_append]
              exact ⟨_, rfl⟩
          obtain ⟨tail, htail⟩ := hstrip
          rw [htail]
          show (if c0 = ']' then some (Json.arr [], tail) else parseElements f (c0 :: tail) [])
              = some (Json.arr (e :: es'), rest)
          rw [if_neg hne0b, ← htail]
          have hfe : elemsFuel (e :: es') ≤ f := by
            simp only [jsonFuel] at hfuel
            omega
          have happ := ihE (e :: es') [] (d + 1) ('\n' :: indentChars d) rest
            (skipWs (printElements (e :: es') (d + 1)
              ++ (('\n' :: indentChars d) ++ (']' :: rest))))
            (by simp) (closeWs d) htok hfe (skipWs_idem _)
          simpa using happ
      | obj ms =>
        cases ms with
        | nil =>
          have hs' : skipWs s = '\x7b' :: ('\x7d' :: rest) := hs
          rw [hs']
          show (match skipWs ('\x7d' :: rest) with
                | [] => parseMembers f [] []
                | c :: rest' =>
                  if c = '\x7d' then some (Json.obj [], rest') else parseMembers f (c :: rest') [])
              = some (Json.obj [], rest)
          rw [skipWs_cons_not_ws '\x7d' rest (by decide)]
          simp
        | cons m ms' =>
          obtain ⟨k, v⟩ := m
          have hs' : skipWs s = '\x7b' :: (printMembers ((k, v) :: ms') (d + 1)
              ++ (('\n' :: indentChars d) ++ ('\x7d' :: rest))) := by
            rw [hs]
            show ('\x7b' :: (printMembers ((k, v) :: ms') (d + 1)
                ++ '\n' :: (indentChars d ++ ['\x7d']))) ++ rest = _
            simp
          rw [hs']
          show (match skipWs (printMembers ((k, v) :: ms') (d + 1)
                  ++ (('\n' :: indentChars d) ++ ('\x7d' :: rest))) with
                | [] => parseMembers f [] []
                | c :: rest' =>
                  if c = '\x7d' then some (Json.obj [], rest') else parseMembers f (c :: rest') [])
              = some (Json.obj ((k, v) :: ms'), rest)
          obtain ⟨tail, htail⟩ := printMembers_strip k v ms' (d + 1)
            (('\n' :: indentChars d) ++ ('\x7d' :: rest))
          rw [htail]
          show (if ('"' : Char) = '\x7d' then some (Json.obj [], tail)
              else parseMembers f ('"' :: tail) []) = some (Json.obj ((k, v) :: ms'), rest)
          rw [if_neg (by decide), ← htail]
          have hfm : membersFuel ((k, v) :: ms') ≤ f := by
            simp only [jsonFuel] at hfuel
            omega
          have happ := ihM ((k, v) :: ms') [] (d + 1) ('\n' :: indentChars d) rest
            (by simp) (closeWs d) htok hfm
          simpa using happ
    · -- members
      intro ms acc d wsClose rest hne hws htok hfuel
      cases ms with
      | nil => exact absurd rfl hne
      | cons kv ms' =>
        obtain ⟨k, v⟩ := kv
        have hsufskip : skipWs (wsClose ++ ('\x7d' :: rest)) = '\x7d' :: rest := by
          rw [skipWs_ws_append wsClose _ hws, skipWs_cons_not_ws _ _ (by decide)]
        cases ms' with
        | nil =>
          have hfv : jsonFuel v ≤ f := by
            simp only [membersFuel] at hfuel
            omega
          rw [printMembers_strip_single, parseMembers_quote, parseStrBody_escChars]
          dsimp only
          rw [skipWs_cons_not_ws ':' _ (by decide)]
          show (match parseValue f (' ' :: (printJson v d ++ (wsClose ++ '\x7d' :: rest))) with
                | none => none
                | some (v', r3) =>
                  match skipWs r3 with
                  | ',' :: r4 => parseMembers f (skipWs r4) (acc ++ [(String.mk k.data, v')])
                  | '\x7d' :: r4 => some (Json.obj (acc ++ [(String.mk k.data, v')]), r4)
                  | _ => none)
              = some (Json.obj (acc ++ [(k, v)]), rest)
          have hr2 : skipWs (' ' :: (printJson v d ++ (wsClose ++ '\x7d' :: rest)))
              = printJson v d ++ (wsClose ++ '\x7d' :: rest) := by
            show skipWs (printJson v d ++ (wsClose ++ '\x7d' :: rest)) = _
            exact skipWs_print_append v d _
          have htok' : Tok (wsClose ++ '\x7d' :: rest) :=
            tok_ws_append wsClose _ hws (tok_cons _ _ (by decide))
          have hval := ihV v d (' ' :: (printJson v d ++ (wsClose ++ '\x7d' :: rest)))
            (wsClose ++ '\x7d' :: rest) hr2 htok' hfv
          rw [hval]
          dsimp only
          rw [hsufskip]
          rfl
        | cons m2 ms2 =>
          have hfv : jsonFuel v ≤ f := by
            simp only [membersFuel] at hfuel
            omega
          have hfm2 : membersFuel (m2 :: ms2) ≤ f := by
            simp only [membersFuel] at hfuel ⊢
            omega
          rw [printMembers_strip_cons, parseMembers_quote, parseStrBody_escChars]
          dsimp only
          rw [skipWs_cons_not_ws ':' _ (by decide)]
          show (match parseValue f (' ' :: (printJson v d
                  ++ (',' :: (printMembers (m2 :: ms2) d ++ (wsClose ++ '\x7d' :: rest))))) with
                | none => none
                | some (v', r3) =>
                  match skipWs r3 with
                  | ',' :: r4 => parseMembers f (skipWs r4) (acc ++ [(String.mk k.data, v')])
                  | '\x7d' :: r4 => some (Json.obj (acc ++ [(String.mk k.data, v')]), r4)
                  | _ => none)
              = some (Json.obj (acc ++ ((k, v) :: m2 :: ms2)), rest)
          have hr2 : skipWs (' ' :: (printJson v d
              ++ (',' :: (printMembers (m2 :: ms2) d ++ (wsClose ++ '\x7d' :: rest)))))
              = printJson v d
                ++ (',' :: (printMembers (m2 :: ms2) d ++ (wsClose ++ '\x7d' :: rest))) := by
            show skipWs (printJson v d
                ++ (',' :: (printMembers (m2 :: ms2) d ++ (wsClose ++ '\x7d' :: rest)))) = _
            exact skipWs_print_append v d _
          have htok' : Tok (',' :: (printMembers (m2 :: ms2) d ++ (wsClose ++ '\x7d' :: rest))) :=
            tok_cons _ _ (by decide)
          have hval := ihV v d _ _ hr2 htok' hfv
          rw [hval]
          dsimp only
          rw [skipWs_cons_not_ws ',' _ (by decide)]
          show parseMembers f (skipWs (printMembers (m2 :: ms2) d ++ (wsClose ++ '\x7d' :: rest)))
              (acc ++ [(String.mk k.data, v)])
            = some (Json.obj (acc ++ ((k, v) :: m2 :: ms2)), rest)
          have happ := ihM (m2 :: ms2) (acc ++ [(String.mk k.data, v)]) d wsClose rest
            (by simp) hws htok hfm2
          rw [happ]
          show some (Json.obj ((acc ++ [(k, v)]) ++ (m2 :: ms2)), rest) = _
          rw [List.append_assoc]
          rfl
    · -- elements
      intro es acc d wsClose rest s hne hws htok hfuel hs
      cases es with
      | nil => exact absurd rfl hne
      | cons e es' =>
        have hsufskip : skipWs (wsClose ++ (']' :: rest)) = ']' :: rest := by
          rw [skipWs_ws_append wsClose _ hws, skipWs_cons_not_ws _ _ (by decide)]
        cases es' with
        | nil =>
          have hfe : jsonFuel e ≤ f := by
            simp only [elemsFuel] at hfuel
            omega
          have hskip : skipWs s = printJson e d ++ (wsClose ++ ']' :: rest) := by
            rw [hs, printElements_strip_single]
          have htok' : Tok (wsClose ++ ']' :: rest) :=
            tok_ws_append wsClose _ hws (tok_cons _ _ (by decide))
          have hval := ihV e d s (wsClose ++ ']' :: rest) hskip htok' hfe
          rw [parseElements_step, hval]
          dsimp only
          rw [hsufskip]
          rfl
        | cons e2 es2 =>
          have hfe : jsonFuel e ≤ f := by
            simp only [elemsFuel] at hfuel
            omega
          have hfe2 : elemsFuel (e2 :: es2) ≤ f := by
            simp only [elemsFuel] at hfuel ⊢
            omega
          have hskip : skipWs s = printJson e d
              ++ (',' :: (printElements (e2 :: es2) d ++ (wsClose ++ ']' :: rest))) := by
            rw [hs, printElements_strip_cons]
          have htok' : Tok (',' :: (printElements (e2 :: es2) d ++ (wsClose ++ ']' :: rest))) :=
            tok_cons _ _ (by decide)
          have hval := ihV e d s _ hskip htok' hfe
          rw [parseElements_step, hval]
          dsimp only
          rw [skipWs_cons_not_ws ',' _ (by decide)]
          show parseElements f (printElements (e2 :: es2) d ++ (wsClose ++ ']' :: rest))
              (acc ++ [e])
            = some (Json.arr (acc ++ (e :: e2 :: es2)), rest)
          have happ := ihE (e2 :: es2) (acc ++ [e]) d wsClose rest
            (printElements (e2 :: es2) d ++ (wsClose ++ ']' :: rest))
            (by simp) hws htok hfe2 rfl
          rw [happ]
          show some (Json.arr ((acc ++ [e]) ++ (e2 :: es2)), rest) = _
          rw [List.append_assoc]
          rfl

/-- Each element's fuel is below the array's fuel. -/
theorem jsonFuel_lt_elems (v : Json) : ∀ es : List Json, v ∈ es → jsonFuel v < 1 + elemsFuel es := by
  intro es
  induction es with
  | nil => intro h; cases h
  | cons e tail ih =>
    intro h
    rcases List.mem_cons.mp h with rfl | h0
    · simp only [elemsFuel]
      omega
    · have h2 := ih h0
      have h3 := jsonFuel_pos e
      simp only [elemsFuel]
      omega

/-- Each member value's fuel is below the object's fuel. -/
theorem jsonFuel_lt_members (m : String × Json) :
    ∀ ms : List (String × Json), m ∈ ms → jsonFuel m.2 < 1 + membersFuel ms := by
  intro ms
  induction ms with
  | nil => intro h; cases h
  | cons m0 tail ih =>
    obtain ⟨k0, v0⟩ := m0
    intro h
    rcases List.mem_cons.mp h with rfl | h0
    · show jsonFuel v0 < 1 + membersFuel ((k0, v0) :: tail)
      simp only [membersFuel]
      omega
    · have h2 := ih h0
      have h3 := jsonFuel_pos v0
      simp only [membersFuel]
      omega

/-- Elements fuel is bounded by the printed elements' length. -/
theorem elemsFuel_le_print : ∀ es : List Json,
    (∀ v ∈ es, ∀ d, jsonFuel v ≤ (printJson v d).length) →
    ∀ d, elemsFuel es ≤ (printElements es d).length := by
  intro es
  induction es with
  | nil => intro _ d; exact Nat.zero_le _
  | cons e tail ih =>
    intro IH d
    cases tail with
    | nil =>
      have h1 := IH e (List.mem_singleton.mpr rfl) d
      simp only [printElements, elemsFuel, List.length_cons, List.length_append]
      omega
    | cons e2 t2 =>
      have h1 := IH e (List.mem_cons_self e _) d
      have h2 := ih (fun v hv d0 => IH v (List.mem_cons_of_mem e hv) d0) d
      simp only [elemsFuel] at h2
      simp only [printElements, elemsFuel, List.length_cons, List.length_append]
      omega

/-- Members fuel is bounded by the printed members' length. -/
theorem membersFuel_le_print : ∀ ms : List (String × Json),
    (∀ m ∈ ms, ∀ d, jsonFuel m.2 ≤ (printJson m.2 d).length) →
    ∀ d, membersFuel ms ≤ (printMembers ms d).length := by
  intro ms
  induction ms with
  | nil => intro _ d; exact Nat.zero_le _
  | cons m tail ih =>
    obtain ⟨k, v⟩ := m
    intro IH d
    cases tail with
    | nil =>
      have h1 := IH (k, v) (List.mem_singleton.mpr rfl) d
      simp only [printMembers, membersFuel, quoteChars, List.length_cons, List.length_append]
      simp only at h1
      omega
    | cons m2 t2 =>
      have h1 := IH (k, v) (List.mem_cons_self (k, v) _) d
      have h2 := ih (fun p hp d0 => IH p (List.mem_cons_of_mem (k, v) hp) d0) d
      simp only [membersFuel] at h2
      simp only [printMembers, membersFuel, quoteChars, List.length_cons, List.length_append]
      simp only at h1
      omega

/-- A value's sufficient fuel never exceeds its printed length. -/
theorem jsonFuel_le_print_aux : ∀ (n : Nat) (j : Json), jsonFuel j ≤ n →
    ∀ d, jsonFuel j ≤ (printJson j d).length := by
  intro n
  induction n with
  | zero =>
    intro j h
    have h1 := jsonFuel_pos j
    exact absurd h (by omega)
  | succ n ih =>
    intro j h d
    cases j with
    | null =>
      show (1 : Nat) ≤ 4
      decide
    | bool b =>
      cases b with
      | false =>
        show (1 : Nat) ≤ 5
        decide
      | true =>
        show (1 : Nat) ≤ 4
        decide
    | num m =>
      obtain ⟨c, t, hct, _⟩ := intChars_head m
      show 1 ≤ (intChars m).length
      rw [hct]
      simp
    | str s =>
      show 1 ≤ ('"' :: (escChars s.data ++ ['"'])).length
      simp
    | arr es =>
      cases es with
      | nil =>
        show (1 : Nat) + 0 ≤ 2
        decide
      | cons e tail =>
        have hIH : ∀ v ∈ (e :: tail), ∀ d0, jsonFuel v ≤ (printJson v d0).length := by
          intro v hv d0
          have hlt := jsonFuel_lt_elems v (e :: tail) hv
          have hj : jsonFuel (Json.arr (e :: tail)) = 1 + elemsFuel (e :: tail) := rfl
          exact ih v (by omega) d0
        have hE := elemsFuel_le_print (e :: tail) hIH (d + 1)
        show 1 + elemsFuel (e :: tail)
            ≤ ('[' :: (printElements (e :: tail) (d + 1)
                ++ '\n' :: (indentChars d ++ [']']))).length
        simp only [List.length_cons, List.length_append]
        omega
    | obj ms =>
      cases ms with
      | nil =>
        show (1 : Nat) + 0 ≤ 2
        decide
      | cons m tail =>
        have hIH : ∀ p ∈ (m :: tail), ∀ d0, jsonFuel p.2 ≤ (printJson p.2 d0).length := by
          intro p hp d0
          have hlt := jsonFuel_lt_members p (m :: tail) hp
          have hj : jsonFuel (Json.obj (m :: tail)) = 1 + membersFuel (m :: tail) := rfl
          exact ih p.2 (by omega) d0
        have hM := membersFuel_le_print (m :: tail) hIH (d + 1)
        show 1 + membersFuel (m :: tail)
            ≤ ('\x7b' :: (printMembers (m :: tail) (d + 1)
                ++ '\n' :: (indentChars d ++ ['\x7d']))).length
        simp only [List.length_cons, List.length_append]
        omega

/-- A value's sufficient fuel never exceeds its printed length. -/
theorem jsonFuel_le_print (j : Json) (d : Nat) : jsonFuel j ≤ (printJson j d).length :=
  jsonFuel_le_print_aux (jsonFuel j) j le_rfl d

/-- Parsing a printed value with length-based fuel succeeds. -/
theorem parseValue_print (j : Json) :
    parseValue ((printJson j 0).length + 1) (printJson j 0) = some (j, []) := by
  apply (parsePrint_aux ((printJson j 0).length + 1)).1 j 0 (printJson j 0) []
  · have h := skipWs_print_append j 0 []
    rw [List.append_nil] at h
    rw [List.append_nil]
    exact h
  · exact tok_nil
  · have := jsonFuel_le_print j 0
    omega

/-- `jsonParse` inverts the printer. -/
theorem jsonParse_print (j : Json) : jsonParse (String.mk (printJson j 0)) = some j := by
  show (match parseValue ((printJson j 0).length + 1) (printJson j 0) with
        | some (v, rest) => if (skipWs rest).isEmpty then some v else none
        | none => none) = some j
  rw [parseValue_print j]
  rfl

/-- `asNat` on a casted natural gives it back. -/
theorem asNat_natCast (n : Nat) : asNat (.num (n : Int)) = some n := by
  show (if (n : Int) < 0 then none else some ((n : Int)).toNat) = some n
  rw [if_neg (by omega)]
  have h : ((n : Int)).toNat = n := by omega
  rw [h]

/-- Comment-mapping JSON encoding is invertible. -/
theorem commentMappingFromJson_toJson (c : CommentMapping) :
    commentMappingFromJson (commentMappingToJson c) = some c := rfl

/-- The comments sub-map survives the JSON round trip. -/
theorem comments_mapM (l : List (String × CommentMapping)) :
    (l.map (fun p => (p.1, commentMappingToJson p.2))).mapM
      (fun p => (commentMappingFromJson p.2).map (fun c => (p.1, c))) = some l := by
  induction l with
  | nil => rfl
  | cons p tail ih =>
    obtain ⟨k, c⟩ := p
    rw [List.map_cons, List.mapM_cons]
    have ih' : List.mapM.loop
        (fun p => Option.map (fun c0 => (p.1, c0)) (commentMappingFromJson p.2))
        (List.map (fun p => (p.1, commentMappingToJson p.2)) tail) [] = some tail := ih
    simp [commentMappingFromJson_toJson, ih']

/-- Issue-mapping JSON encoding is invertible. -/
theorem issueMappingFromJson_toJson (m : IssueMapping) :
    issueMappingFromJson (issueMappingToJson m) = some m := by
  have h1 : issueMappingFromJson (issueMappingToJson m)
      = (if (m.github_issue_number : Int) < 0 then none
         else some ((m.github_issue_number : Int)).toNat).bind (fun number =>
          ((m.comments.map (fun p => (p.1, commentMappingToJson p.2))).mapM
            (fun p => (commentMappingFromJson p.2).map (fun c => (p.1, c)))).bind
            (fun comments =>
              some { github_issue_number := number
                   , github_issue_id := m.github_issue_id
                   , last_sync_at := m.last_sync_at
                   , beads_updated_at := m.beads_updated_at
                   , adopted_from_external_ref := m.adopted_from_external_ref
                   , comments := comments })) := rfl
  rw [h1, if_neg (by omega), comments_mapM m.comments]
  have h2 : ((m.github_issue_number : Int)).toNat = m.github_issue_number := by omega
  rw [h2]
  rfl

/-- The mappings object survives the JSON round trip. -/
theorem mappings_mapM (l : List (String × IssueMapping)) :
    (l.map (fun p => (p.1, issueMappingToJson p.2))).mapM
      (fun p => (issueMappingFromJson p.2).map (fun im => (p.1, im))) = some l := by
  induction l with
  | nil => rfl
  | cons p tail ih =>
    obtain ⟨k, im⟩ := p
    rw [List.map_cons, List.mapM_cons]
    have ih' : List.mapM.loop
        (fun p => Option.map (fun im0 => (p.1, im0)) (issueMappingFromJson p.2))
        (List.map (fun p => (p.1, issueMappingToJson p.2)) tail) [] = some tail := ih
    simp [issueMappingFromJson_toJson, ih']

/-- Mapping-file JSON encoding is invertible. -/
theorem mappingFileFromJson_toJson (M : MappingFile) :
    mappingFileFromJson (mappingFileToJson M) = some M := by
  have h1 : mappingFileFromJson (mappingFileToJson M)
      = ((M.mappings.map (fun p => (p.1, issueMappingToJson p.2))).mapM
          (fun p => (issueMappingFromJson p.2).map (fun im => (p.1, im)))).bind
          (fun mappings =>
            some { version := M.version
                 , mappings := mappings
                 , sync_metadata := { last_full_sync := M.sync_metadata.last_full_sync } }) := rfl
  rw [h1, mappings_mapM]
  rfl

/-- A serialized mapping file never trims to the empty string. -/
theorem jsTrim_serialize_ne (M : MappingFile) : jsTrim (serializeMapping M) ≠ "" := by
  intro hc
  have hdata : ((((serializeMapping M).data.dropWhile isJsWs).reverse.dropWhile
      isJsWs).reverse) = [] := congrArg String.data hc
  obtain ⟨t, ht⟩ : ∃ t, printJson (mappingFileToJson M) 0 = '\x7b' :: t := ⟨_, rfl⟩
  have hsd : (serializeMapping M).data = '\x7b' :: t := ht
  rw [hsd] at hdata
  have hdw : ('\x7b' :: t).dropWhile isJsWs = '\x7b' :: t := by
    rw [List.dropWhile_cons, if_neg (by decide)]
  rw [hdw] at hdata
  have hnil : (('\x7b' :: t).reverse).dropWhile isJsWs = [] :=
    List.reverse_eq_nil_iff.mp hdata
  have hall := List.dropWhile_eq_nil_iff.mp hnil
  have hmem : '\x7b' ∈ ('\x7b' :: t).reverse := by simp
  exact absurd (hall _ hmem) (by decide)

/-- C9: serialization round trip. For every in-memory `MappingFile` M,
`deserializeMapping` applied to `serializeMapping M` succeeds and returns the
JSON value `mappingFileToJson M` (the parsed object the TypeScript code casts
to `MappingFile`), and decoding that JSON value field-by-field recovers M
exactly: version, every mappings entry with its comments sub-map, and
sync_metadata. -/
theorem serialize_roundtrip (now : String) (M : MappingFile) :
    deserializeMapping now (serializeMapping M) = some (mappingFileToJson M)
    ∧ mappingFileFromJson (mappingFileToJson M) = some M := by
  constructor
  · show (if jsTrim (serializeMapping M) = "" then
        some (mappingFileToJson (createEmptyMapping now))
      else jsonParse (serializeMapping M)) = some (mappingFileToJson M)
    rw [if_neg (jsTrim_serialize_ne M)]
    exact jsonParse_print (mappingFileToJson M)
  · exact mappingFileFromJson_toJson M

/-! ## Idempotence infrastructure (C1) -/

/-- All mirror calls an action might make succeed (`getIssue` finds its
target). -/
def okResp (resp : ClientResponses) : Prop :=
  (∃ p, resp.createIssue = Except.ok p)
  ∧ resp.updateIssue = Except.ok ()
  ∧ resp.closeIssue = Except.ok ()
  ∧ (∃ p, resp.getIssue = Except.ok (some p))
  ∧ resp.reopenIssue = Except.ok ()

/-- `setWatermark` leaves other ids unchanged. -/
theorem setWatermark_getMapping_ne (m : MappingFile) (id u n x : String) (hx : id ≠ x) :
    getMapping (setWatermark m id u n) x = getMapping m x := by
  unfold setWatermark
  cases hm : getMapping m id with
  | none => rfl
  | some em => exact getMapping_setMapping_ne _ _ _ _ hx

/-- `setWatermark` on an existing Link rewrites exactly its two sync
fields. -/
theorem setWatermark_getMapping_self (m : MappingFile) (id u n : String) (lnk : IssueMapping)
    (hm : getMapping m id = some lnk) :
    getMapping (setWatermark m id u n) id
      = some { lnk with beads_updated_at := u, last_sync_at := n } := by
  unfold setWatermark
  rw [hm]
  exact getMapping_setMapping_self _ _ _

/-- Whatever the outcome, `executeAction` returns the mapping either
untouched, or rewritten at the action's own id. -/
theorem executeAction_mapping_cases (a : SyncAction) (m : MappingFile)
    (resp : ClientResponses) (config : SyncConfig) :
    (executeAction a m resp config).mapping = m
    ∨ (∃ em, (executeAction a m resp config).mapping = setMapping m a.beadsIssue.id em)
    ∨ (executeAction a m resp config).mapping
        = setWatermark m a.beadsIssue.id a.beadsIssue.updated_at resp.now := by
  unfold executeAction
  cases hat : a.type <;> cases hdr : config.dryRun <;>
    cases hass : a.beadsIssue.assignee <;> dsimp only <;>
    (repeat' split) <;>
    first
      | exact Or.inl rfl
      | exact Or.inr (Or.inr rfl)
      | exact Or.inr (Or.inl ⟨_, rfl⟩)

/-- `executeAction` never touches another id's entry. -/
theorem executeAction_getMapping_ne (a : SyncAction) (m : MappingFile)
    (resp : ClientResponses) (config : SyncConfig) (x : String)
    (hx : a.beadsIssue.id ≠ x) :
    getMapping (executeAction a m resp config).mapping x = getMapping m x := by
  rcases executeAction_mapping_cases a m resp config with h | ⟨em, h⟩ | h
  · rw [h]
  · rw [h]
    exact getMapping_setMapping_ne _ _ _ _ hx
  · rw [h]
    exact setWatermark_getMapping_ne _ _ _ _ _ hx

/-- The action loop never touches an id no action carries. -/
theorem runActions_fst_getMapping_ne (config : SyncConfig) (x : String) :
    ∀ (l : List (SyncAction × ClientResponses)) (m : MappingFile),
    (∀ p ∈ l, p.1.beadsIssue.id ≠ x) →
    getMapping (runActions config l m).1 x = getMapping m x := by
  intro l
  induction l with
  | nil => intro m _; rfl
  | cons p rest ih =>
    obtain ⟨a, resp⟩ := p
    intro m hl
    rw [runActions_cons]
    dsimp only
    rw [ih _ (fun q hq => hl q (List.mem_cons_of_mem _ hq))]
    exact executeAction_getMapping_ne a m resp config x (hl (a, resp) (List.mem_cons_self _ _))

/-- A stale linked record contributes exactly one update-or-close action
carrying the record. -/
theorem diffIssue_fst_of_needsUpdate (pd : String → Option Int) (M : MappingFile)
    (r : BeadsIssue) (lnk : IssueMapping) (hl : getMapping M r.id = some lnk)
    (hnu : needsUpdate pd r lnk = true) :
    ∃ a, (diffIssue pd M r).1 = [a] ∧ a.beadsIssue = r
      ∧ (a.type = SyncActionType.update ∨ a.type = SyncActionType.close) := by
  unfold diffIssue
  rw [hl]
  dsimp only
  rw [hnu]
  by_cases h : r.status = BeadsStatus.closed
  · rw [if_pos rfl, if_pos h]
    exact ⟨_, rfl, rfl, Or.inr rfl⟩
  · rw [if_pos rfl, if_neg h]
    exact ⟨_, rfl, rfl, Or.inl rfl⟩

/-- Equal-length zips pair every left element with some right element. -/
theorem mem_zip_left {α β : Type} : ∀ (xs : List α) (ys : List β),
    xs.length = ys.length → ∀ a ∈ xs, ∃ b ∈ ys, (a, b) ∈ xs.zip ys := by
  intro xs
  induction xs with
  | nil => intro ys _ a ha; cases ha
  | cons x t ih =>
    intro ys h a ha
    cases ys with
    | nil => simp at h
    | cons y t2 =>
      rcases List.mem_cons.mp ha with rfl | ha2
      · exact ⟨y, List.mem_cons_self _ _, List.mem_cons_self _ _⟩
      · obtain ⟨b, hb, hab⟩ := ih t2 (by simpa using h) a ha2
        exact ⟨b, List.mem_cons_of_mem _ hb, List.mem_cons_of_mem _ hab⟩

/-- `alistSet` keeps every existing key. -/
theorem mem_keys_alistSet_of_mem {α : Type} (l : List (String × α)) (k : String) (v : α)
    (x : String) (hx : x ∈ l.map Prod.fst) : x ∈ (alistSet l k v).map Prod.fst := by
  induction l with
  | nil => cases hx
  | cons p rest ih =>
    obtain ⟨k0, v0⟩ := p
    by_cases h : k0 = k
    · simp only [alistSet, h, beq_self_eq_true, if_true]
      simp only [List.map_cons, List.mem_cons] at hx ⊢
      rcases hx with rfl | hx
      · exact Or.inl h
      · exact Or.inr hx
    · have hstep : alistSet ((k0, v0) :: rest) k v = (k0, v0) :: alistSet rest k v := by
        simp [alistSet, beq_eq_false_iff_ne.mpr h]
      rw [hstep]
      simp only [List.map_cons, List.mem_cons] at hx ⊢
      rcases hx with rfl | hx
      · exact Or.inl rfl
      · exact Or.inr (ih hx)

/-- `alistSet` makes its own key present. -/
theorem mem_keys_alistSet_self {α : Type} (l : List (String × α)) (k : String) (v : α) :
    k ∈ (alistSet l k v).map Prod.fst := by
  induction l with
  | nil => simp [alistSet]
  | cons p rest ih =>
    obtain ⟨k0, v0⟩ := p
    by_cases h : k0 = k
    · simp [alistSet, h]
    · have hstep : alistSet ((k0, v0) :: rest) k v = (k0, v0) :: alistSet rest k v := by
        simp [alistSet, beq_eq_false_iff_ne.mpr h]
      rw [hstep]
      simp only [List.map_cons, List.mem_cons]
      exact Or.inr ih

/-- One comment-loop step on a successful `createComment`. -/
theorem syncComments_cons_ok (ca : CommentSyncAction) (g : Int)
    (rest : List (CommentSyncAction × Except String Int)) (m : MappingFile) :
    (syncComments ((ca, Except.ok g) :: rest) m false).1
      = (syncComments rest (setCommentMapping m ca.beadsIssueId ca.comment.id g) false).1 := rfl

/-- One comment-loop step on a failed `createComment`. -/
theorem syncComments_cons_err (ca : CommentSyncAction) (s : String)
    (rest : List (CommentSyncAction × Except String Int)) (m : MappingFile) :
    (syncComments ((ca, Except.error s) :: rest) m false).1
      = (syncComments rest m false).1 := rfl

/-- The comment loop only grows a Link's comment object: the Link survives
with every old key, plus a key for every successful action addressed to
it. -/
theorem syncComments_getMapping :
    ∀ (l : List (CommentSyncAction × Except String Int)) (m : MappingFile)
      (id : String) (lnk : IssueMapping),
    getMapping m id = some lnk →
    ∃ cs, getMapping (syncComments l m false).1 id = some { lnk with comments := cs }
      ∧ (∀ k, k ∈ lnk.comments.map Prod.fst → k ∈ cs.map Prod.fst)
      ∧ (∀ p ∈ l, p.1.beadsIssueId = id → (∃ g, p.2 = Except.ok g) →
          p.1.comment.id ∈ cs.map Prod.fst) := by
  intro l
  induction l with
  | nil =>
    intro m id lnk hm
    refine ⟨lnk.comments, ?_, fun k hk => hk, fun p hp => absurd hp (List.not_mem_nil p)⟩
    show getMapping m id = _
    rw [hm]
  | cons p rest ih =>
    obtain ⟨ca, e⟩ := p
    intro m id lnk hm
    cases e with
    | error s =>
      rw [syncComments_cons_err]
      obtain ⟨cs, h1, h2, h3⟩ := ih m id lnk hm
      refine ⟨cs, h1, h2, ?_⟩
      intro q hq hqid hqok
      rcases List.mem_cons.mp hq with rfl | hq2
      · obtain ⟨g, hg⟩ := hqok
        cases hg
      · exact h3 q hq2 hqid hqok
    | ok g =>
      rw [syncComments_cons_ok]
      by_cases hid : ca.beadsIssueId = id
      · rw [hid]
        have hm2 : getMapping (setCommentMapping m id ca.comment.id g) id
            = some { lnk with comments := alistSet lnk.comments ca.comment.id ⟨g⟩ } :=
          getMapping_setCommentMapping_self m id ca.comment.id g lnk hm
        obtain ⟨cs, h1, h2, h3⟩ := ih _ id _ hm2
        refine ⟨cs, h1, ?_, ?_⟩
        · intro k hk
          exact h2 k (mem_keys_alistSet_of_mem _ _ _ _ hk)
        · intro q hq hqid hqok
          rcases List.mem_cons.mp hq with rfl | hq2
          · exact h2 _ (mem_keys_alistSet_self _ _ _)
          · exact h3 q hq2 hqid hqok
      · have hm2 : getMapping (setCommentMapping m ca.beadsIssueId ca.comment.id g) id
            = some lnk := by
          rw [getMapping_setCommentMapping_ne m ca.beadsIssueId ca.comment.id g id hid]
          exact hm
        obtain ⟨cs, h1, h2, h3⟩ := ih _ id lnk hm2
        refine ⟨cs, h1, h2, ?_⟩
        intro q hq hqid hqok
        rcases List.mem_cons.mp hq with rfl | hq2
        · exact absurd hqid hid
        · exact h3 q hq2 hqid hqok

/-- For a linked record, every comment is either already keyed in the Link
or contributed as a comment action by the diff. -/
theorem link_comments_cover (pd : String → Option Int) (M : MappingFile) (r : BeadsIssue)
    (lnk : IssueMapping) (hML : getMapping M r.id = some lnk) :
    ∀ c ∈ r.comments.getD [],
      c.id ∈ lnk.comments.map Prod.fst
      ∨ ∃ ca ∈ (diffIssue pd M r).2, ca.comment = c := by
  intro c hc
  by_cases hcin : c.id ∈ lnk.comments.map Prod.fst
  · exact Or.inl hcin
  · refine Or.inr ?_
    rw [diffIssue_snd_of_link pd M r lnk hML, getNewComments_some_eq]
    refine ⟨_, List.mem_map_of_mem _ (List.mem_filter.mpr ⟨hc, ?_⟩), rfl⟩
    simpa using hcin

/-- After the action loop runs the whole diff of a snapshot with pairwise
distinct ids (non-dry-run, every client call succeeding), every record has
a Link that is no longer stale, and each of its comments is either keyed in
that Link or covered by a first-diff comment action. -/
theorem runActions_diff_spec (pd : String → Option Int) (M : MappingFile) (config : SyncConfig)
    (hdr : config.dryRun = false) :
    ∀ (T : List BeadsIssue) (m : MappingFile) (resps : List ClientResponses),
    resps.length = (T.flatMap (fun i => (diffIssue pd M i).1)).length →
    (∀ resp ∈ resps, okResp resp) →
    (T.map (fun i => i.id)).Nodup →
    (∀ i ∈ T, getMapping m i.id = getMapping M i.id) →
    (∀ i ∈ T, getMapping M i.id = none →
        (∀ s, i.external_ref = some s → parseExternalRef s = none) →
        i.comments = none ∨ i.comments = some []) →
    ∀ r ∈ T,
      ∃ lnk, getMapping (runActions config
            ((T.flatMap (fun i => (diffIssue pd M i).1)).zip resps) m).1 r.id = some lnk
        ∧ needsUpdate pd r lnk = false
        ∧ ∀ c ∈ r.comments.getD [],
            c.id ∈ lnk.comments.map Prod.fst
            ∨ ∃ ca ∈ (diffIssue pd M r).2, ca.comment = c := by
  intro T
  induction T with
  | nil => intro m resps _ _ _ _ _ r hr; cases hr
  | cons r0 T2 ih =>
    intro m resps hlen hok hnd hagree hcp r hr
    have hnd2 : (T2.map (fun i => i.id)).Nodup := (List.nodup_cons.mp hnd).2
    have hr0nt : r0.id ∉ T2.map (fun i => i.id) := (List.nodup_cons.mp hnd).1
    have hne2 : ∀ i ∈ T2, i.id ≠ r0.id := by
      intro i hi heq
      exact hr0nt (heq ▸ List.mem_map_of_mem (fun j => j.id) hi)
    have hother : ∀ (resps2 : List ClientResponses)
        (p : SyncAction × ClientResponses),
        p ∈ (T2.flatMap (fun i => (diffIssue pd M i).1)).zip resps2 →
        p.1.beadsIssue.id ≠ r0.id := by
      intro resps2 p hp heq
      have hp1 := (List.of_mem_zip hp).1
      obtain ⟨i, hi, hpa⟩ := List.mem_flatMap.mp hp1
      have hbi := diffIssue_beadsIssue_eq pd M i p.1 hpa
      exact hne2 i hi (by rw [← hbi, heq])
    cases hML : getMapping M r0.id with
    | some lnk0 =>
      cases hnu : needsUpdate pd r0 lnk0 with
      | false =>
        have hD1 : (diffIssue pd M r0).1 = [] :=
          diffIssue_fst_of_not_needsUpdate pd M r0 lnk0 hML hnu
        have hfm : (r0 :: T2).flatMap (fun i => (diffIssue pd M i).1)
            = T2.flatMap (fun i => (diffIssue pd M i).1) := by
          rw [List.flatMap_cons, hD1, List.nil_append]
        rw [hfm] at hlen ⊢
        rcases List.mem_cons.mp hr with rfl | hr2
        · rw [runActions_fst_getMapping_ne config r.id _ m (hother resps)]
          refine ⟨lnk0, ?_, hnu, link_comments_cover pd M r lnk0 hML⟩
          rw [hagree r (List.mem_cons_self _ _)]
          exact hML
        · exact ih m resps hlen (fun q hq => hok q hq) hnd2
            (fun i hi => hagree i (List.mem_cons_of_mem _ hi))
            (fun i hi => hcp i (List.mem_cons_of_mem _ hi)) r hr2
      | true =>
        obtain ⟨a, hD1, hab, htype⟩ := diffIssue_fst_of_needsUpdate pd M r0 lnk0 hML hnu
        have hfm : (r0 :: T2).flatMap (fun i => (diffIssue pd M i).1)
            = a :: T2.flatMap (fun i => (diffIssue pd M i).1) := by
          rw [List.flatMap_cons, hD1]
          rfl
        rw [hfm] at hlen ⊢
        cases resps with
        | nil => simp at hlen
        | cons resp0 resps2 =>
          have hok0 := hok resp0 (List.mem_cons_self _ _)
          have hmfst : (executeAction a m resp0 config).mapping
              = setWatermark m r0.id r0.updated_at resp0.now := by
            rcases htype with ht | ht
            · rw [(executeAction_update_ok a m resp0 config ht hdr hok0.2.1).1, hab]
            · rw [(executeAction_close_ok a m resp0 config ht hdr hok0.2.1 hok0.2.2.1).1, hab]
          have hzip : (a :: T2.flatMap (fun i => (diffIssue pd M i).1)).zip (resp0 :: resps2)
              = (a, resp0) :: (T2.flatMap (fun i => (diffIssue pd M i).1)).zip resps2 := rfl
          rw [hzip, runActions_cons]
          dsimp only
          rw [hmfst]
          have hm2self : getMapping (setWatermark m r0.id r0.updated_at resp0.now) r0.id
              = some { lnk0 with
                  beads_updated_at := r0.updated_at, last_sync_at := resp0.now } := by
            refine setWatermark_getMapping_self m r0.id _ _ lnk0 ?_
            rw [hagree r0 (List.mem_cons_self _ _)]
            exact hML
          have hlen2 : resps2.length
              = (T2.flatMap (fun i => (diffIssue pd M i).1)).length := by
            simpa using hlen
          rcases List.mem_cons.mp hr with rfl | hr2
          · rw [runActions_fst_getMapping_ne config r.id _ _ (hother resps2)]
            refine ⟨_, hm2self, needsUpdate_eq_false_of_eq_watermark pd r _ rfl, ?_⟩
            exact link_comments_cover pd M r lnk0 hML
          · refine ih _ resps2 hlen2 (fun q hq => hok q (List.mem_cons_of_mem _ hq)) hnd2
              ?_ (fun i hi => hcp i (List.mem_cons_of_mem _ hi)) r hr2
            intro i hi
            rw [setWatermark_getMapping_ne m r0.id _ _ i.id (fun h => hne2 i hi h.symm)]
            exact hagree i (List.mem_cons_of_mem _ hi)
    | none =>
      by_cases hadopt : ∃ ref n, r0.external_ref = some ref ∧ parseExternalRef ref = some n
      · obtain ⟨ref, n, href, hp⟩ := hadopt
        have hD := diffIssue_adopt_eq pd M r0 ref n hML href hp
        have hD1 : (diffIssue pd M r0).1
            = [{ type := SyncActionType.adopt, beadsIssue := r0, githubIssueNumber := some n,
                 reason := "Adopting existing GitHub issue from external_ref" }] := by
          rw [hD]
        have hfm : (r0 :: T2).flatMap (fun i => (diffIssue pd M i).1)
            = ({ type := SyncActionType.adopt, beadsIssue := r0, githubIssueNumber := some n,
                 reason := "Adopting existing GitHub issue from external_ref" } : SyncAction)
              :: T2.flatMap (fun i => (diffIssue pd M i).1) := by
          rw [List.flatMap_cons, hD1]
          rfl
        rw [hfm] at hlen ⊢
        cases resps with
        | nil => simp at hlen
        | cons resp0 resps2 =>
          have hok0 := hok resp0 (List.mem_cons_self _ _)
          obtain ⟨⟨ng, gg⟩, hget⟩ := hok0.2.2.2.1
          have hmfst : (executeAction
                { type := SyncActionType.adopt, beadsIssue := r0, githubIssueNumber := some n,
                  reason := "Adopting existing GitHub issue from external_ref" }
                m resp0 config).mapping
              = setMapping m r0.id (createIssueMapping ng gg r0.updated_at true resp0.now) :=
            (executeAction_adopt_ok _ m resp0 config ng gg rfl hdr hget hok0.2.1).1
          rw [List.zip_cons_cons, runActions_cons]
          dsimp only
          rw [hmfst]
          have hlen2 : resps2.length
              = (T2.flatMap (fun i => (diffIssue pd M i).1)).length := by
            simpa using hlen
          rcases List.mem_cons.mp hr with rfl | hr2
          · rw [runActions_fst_getMapping_ne config r.id _ _ (hother resps2)]
            refine ⟨_, getMapping_setMapping_self m r.id _,
              needsUpdate_eq_false_of_eq_watermark pd r _ rfl, ?_⟩
            intro c hc
            refine Or.inr ?_
            have hD2 : (diffIssue pd M r).2 = getNewComments r none n := by
              rw [hD]
            rw [hD2, getNewComments_none_eq]
            exact ⟨_, List.mem_map_of_mem _ hc, rfl⟩
          · refine ih _ resps2 hlen2 (fun q hq => hok q (List.mem_cons_of_mem _ hq)) hnd2
              ?_ (fun i hi => hcp i (List.mem_cons_of_mem _ hi)) r hr2
            intro i hi
            rw [getMapping_setMapping_ne m r0.id i.id _ (fun h => hne2 i hi h.symm)]
            exact hagree i (List.mem_cons_of_mem _ hi)
      · have hnoref : ∀ s, r0.external_ref = some s → parseExternalRef s = none := by
          intro s hs
          cases hps : parseExternalRef s with
          | none => rfl
          | some n => exact absurd ⟨s, n, hs, hps⟩ hadopt
        have hD := diffIssue_create_eq pd M r0 hML hnoref
        have hD1 : (diffIssue pd M r0).1
            = [{ type := SyncActionType.create, beadsIssue := r0, githubIssueNumber := none,
                 reason := "New beads issue" }] := by
          rw [hD]
        have hfm : (r0 :: T2).flatMap (fun i => (diffIssue pd M i).1)
            = ({ type := SyncActionType.create, beadsIssue := r0, githubIssueNumber := none,
                 reason := "New beads issue" } : SyncAction)
              :: T2.flatMap (fun i => (diffIssue pd M i).1) := by
          rw [List.flatMap_cons, hD1]
          rfl
        rw [hfm] at hlen ⊢
        cases resps with
        | nil => simp at hlen
        | cons resp0 resps2 =>
          have hok0 := hok resp0 (List.mem_cons_self _ _)
          obtain ⟨⟨nc, gc⟩, hcr⟩ := hok0.1
          have hmfst : (executeAction
                { type := SyncActionType.create, beadsIssue := r0, githubIssueNumber := none,
                  reason := "New beads issue" }
                m resp0 config).mapping
              = setMapping m r0.id (createIssueMapping nc gc r0.updated_at false resp0.now) :=
            (executeAction_create_ok _ m resp0 config nc gc rfl hdr hcr).1
          rw [List.zip_cons_cons, runActions_cons]
          dsimp only
          rw [hmfst]
          have hlen2 : resps2.length
              = (T2.flatMap (fun i => (diffIssue pd M i).1)).length := by
            simpa using hlen
          rcases List.mem_cons.mp hr with rfl | hr2
          · rw [runActions_fst_getMapping_ne config r.id _ _ (hother resps2)]
            refine ⟨_, getMapping_setMapping_self m r.id _,
              needsUpdate_eq_false_of_eq_watermark pd r _ rfl, ?_⟩
            have hgetD : r.comments.getD [] = [] := by
              rcases hcp r (List.mem_cons_self _ _) hML hnoref with h | h <;> rw [h] <;> rfl
            intro c hc
            rw [hgetD] at hc
            cases hc
          · refine ih _ resps2 hlen2 (fun q hq => hok q (List.mem_cons_of_mem _ hq)) hnd2
              ?_ (fun i hi => hcp i (List.mem_cons_of_mem _ hi)) r hr2
            intro i hi
            rw [getMapping_setMapping_ne m r0.id i.id _ (fun h => hne2 i hi h.symm)]
            exact hagree i (List.mem_cons_of_mem _ hi)

/-- A diff against a map that links every record freshly (and keys all its
comments) is empty. -/
theorem computeDiff_empty_of (pd : String → Option Int) (S : List BeadsIssue) (M2 : MappingFile)
    (h : ∀ r ∈ S, ∃ lnk, getMapping M2 r.id = some lnk ∧ needsUpdate pd r lnk = false
        ∧ ∀ c ∈ r.comments.getD [], c.id ∈ lnk.comments.map Prod.fst) :
    (computeDiff pd S M2).actions = [] ∧ (computeDiff pd S M2).commentActions = [] := by
  constructor
  · show S.flatMap (fun issue => (diffIssue pd M2 issue).1) = []
    apply List.flatMap_eq_nil_iff.mpr
    intro r hr
    obtain ⟨lnk, hm, hnu, -⟩ := h r hr
    exact diffIssue_fst_of_not_needsUpdate pd M2 r lnk hm hnu
  · show S.flatMap (fun issue => (diffIssue pd M2 issue).2) = []
    apply List.flatMap_eq_nil_iff.mpr
    intro r hr
    obtain ⟨lnk, hm, -, hcov⟩ := h r hr
    rw [diffIssue_snd_of_link pd M2 r lnk hm, getNewComments_some_eq]
    have hfilter : (r.comments.getD []).filter
        (fun c => !((lnk.comments.map (fun p => p.1)).contains c.id)) = [] := by
      apply List.filter_eq_nil_iff.mpr
      intro c hc
      simpa using hcov c hc
    rw [hfilter]
    rfl

/-- **C1 (corrected).** Idempotence of the diff after a fully successful
non-dry-run application.  For a snapshot with pairwise distinct ids, if
every mirror call of every action succeeds, every `createComment` call
succeeds, a client outcome is supplied for each action and each comment
action, and — the correction — every record on the plain `create` path
(no existing Link, external_ref absent or failing the adoption pattern)
carries no comments, then the diff of the same snapshot against the map
produced by `runSync` has empty `actions` and empty `commentActions`.
(Without the comment proviso only `actions = []` survives: a created
record's comments are not emitted as comment actions on the first pass, so
its fresh Link has an empty comment map and the second diff emits them —
see the counterexample.) -/
theorem diff_apply_idempotent (pd : String → Option Int) (S : List BeadsIssue)
    (M : MappingFile) (aresp : List ClientResponses) (cresp : List (Except String Int))
    (closeResp : String → Except String Unit) (config : SyncConfig) (now : String)
    (hdr : config.dryRun = false) (hsc : config.syncComments = true)
    (hnd : (S.map (fun i => i.id)).Nodup)
    (hlen : aresp.length = (computeDiff pd S M).actions.length)
    (hok : ∀ resp ∈ aresp, okResp resp)
    (hclen : cresp.length = (computeDiff pd S M).commentActions.length)
    (hcok : ∀ e ∈ cresp, ∃ g, e = Except.ok g)
    (hcp : ∀ i ∈ S, getMapping M i.id = none →
        (∀ s, i.external_ref = some s → parseExternalRef s = none) →
        i.comments = none ∨ i.comments = some []) :
    (computeDiff pd S (runSync pd S M aresp cresp closeResp config now).1).actions = []
    ∧ (computeDiff pd S (runSync pd S M aresp cresp closeResp config now).1).commentActions
        = [] := by
  have hM : (runSync pd S M aresp cresp closeResp config now).1
      = updateLastSyncTime
          ((syncComments ((computeDiff pd S M).commentActions.zip cresp)
            ((runActions config ((computeDiff pd S M).actions.zip aresp) M).1) false).1)
          now := by
    simp only [runSync]
    rw [hsc, hdr]
    simp
  rw [hM]
  apply computeDiff_empty_of
  intro r hr
  have hs1 := runActions_diff_spec pd M config hdr S M aresp hlen hok hnd
    (fun i _ => rfl) hcp r hr
  obtain ⟨lnk1, hm1, hnu1, hcov1⟩ := hs1
  have hm1a : getMapping
      ((runActions config ((computeDiff pd S M).actions.zip aresp) M).1) r.id
      = some lnk1 := hm1
  obtain ⟨cs, h1, h2, h3⟩ := syncComments_getMapping
    ((computeDiff pd S M).commentActions.zip cresp) _ r.id lnk1 hm1a
  refine ⟨{ lnk1 with comments := cs }, ?_, ?_, ?_⟩
  · rw [getMapping_updateLastSyncTime]
    exact h1
  · have hsame : needsUpdate pd r { lnk1 with comments := cs }
        = needsUpdate pd r lnk1 := rfl
    rw [hsame]
    exact hnu1
  · intro c hc
    rcases hcov1 c hc with hin | ⟨ca, hca, hccomment⟩
    · exact h2 c.id hin
    · have hmem : ca ∈ (computeDiff pd S M).commentActions :=
        List.mem_flatMap.mpr ⟨r, hr, hca⟩
      obtain ⟨e, he, hpair⟩ := mem_zip_left _ cresp hclen.symm ca hmem
      have hid := diffIssue_commentId_eq pd M r ca hca
      have hkey := h3 (ca, e) hpair hid (hcok e he)
      rw [hccomment] at hkey
      exact hkey

/-- A new record carrying one comment and no external reference. -/
def rCex : BeadsIssue :=
  { sampleIssue "bd-x" BeadsStatus.«open» "AA" with
    comments := some [{ id := "c1", author := "alice", created_at := "t1", body := "hello" }] }

/-- An empty identity map for the idempotence instances. -/
def mC1 : MappingFile := createEmptyMapping "T0"

/-- Deletion-close outcomes for the idempotence instances (never consulted:
the deletion set is empty). -/
def closeRespW : String → Except String Unit := fun _ => Except.ok ()

/-- **C1 (counterexample to the literal claim).** A snapshot holding one
new record that carries a comment, applied to completion against the empty
map — non-dry-run, every mirror call succeeding, and a client outcome for
each action (the first diff emits one `create` action and no comment
actions, so the empty comment-outcome list is complete).  The second diff
is not empty: the fresh Link has an empty comment map, so the record's
comment is now emitted as a `CommentAction`. -/
theorem diff_apply_idempotent_counterexample :
    (computeDiff pdW [rCex]
      (runSync pdW [rCex] mC1 [respOk] [] closeRespW configW "T1").1).commentActions
      ≠ [] := by
  decide

/-- A new record with no external reference and no comments. -/
def rW1 : BeadsIssue := sampleIssue "bd-w1" BeadsStatus.«open» "AA"

/-- Witness for the corrected C1 on a concrete one-record snapshot. -/
theorem diff_apply_idempotent_witness :
    (computeDiff pdW [rW1]
      (runSync pdW [rW1] mC1 [respOk] [] closeRespW configW "T1").1).actions = []
    ∧ (computeDiff pdW [rW1]
      (runSync pdW [rW1] mC1 [respOk] [] closeRespW configW "T1").1).commentActions = [] :=
  diff_apply_idempotent pdW [rW1] mC1 [respOk] [] closeRespW configW "T1"
    rfl rfl (by decide) (by decide)
    (by
      intro resp h
      rw [List.mem_singleton] at h
      subst h
      exact ⟨⟨(11, 110), rfl⟩, rfl, rfl, ⟨(12, 120), rfl⟩, rfl⟩)
    (by decide)
    (fun e he => absurd he (List.not_mem_nil e))
    (by
      intro i hi _ _
      rw [List.mem_singleton] at hi
      subst hi
      exact Or.inl rfl)

end BeadsSync
